import Mathlib

/-!
# Verification of the json-schema-to-ts compilation pipeline

A shallow embedding of the core of the `json-schema-to-ts` compiler
(shape classification, recursive parsing with a visitation cache,
default-value validation, code generation, structural validation),
together with theorems settling the specification claims.

JavaScript strings are modelled as `String` or, where character-level
reasoning is needed (`typeOfSchema.ts`), as `List Char`.  JavaScript
numbers appearing as schema data (defaults, bounds) are modelled as `Int`.
Thrown exceptions are modelled with `Except`; each `throw` site of the
source becomes one constructor of an error type.
-/

namespace JsonSchemaToTs

/-- A JSON value, as handled by the parser's default-value validation
(`typeof` dispatch).  Object payloads are opaque: the code under study
never inspects an object default's fields, only `typeof`/`Array.isArray`. -/
inductive JSValue where
  | null
  | bool (b : Bool)
  | num (n : Int)
  | str (s : String)
  | arr (elems : List JSValue)
  | obj

/-- Models `value === null`. -/
def JSValue.isNull : JSValue → Bool
  | JSValue.null => true
  | _ => false

/-! ## Shape classifier (`src/typeOfSchema.ts`) -/

/-- The characters of the JSON type name `"null"`. -/
def nullChars : List Char := ['n', 'u', 'l', 'l']

/-- The raw `type` field of a schema node: a string, an array of strings,
or (per the defensive branch of `isTypeNullable`) some other value. -/
inductive RawType where
  | strT (s : List Char)
  | arrT (ts : List (List Char))
  | otherT
deriving DecidableEq, Repr

/-- JavaScript truthiness of the `type` field (`if (rawType)`):
`undefined` and the empty string are falsy, arrays are always truthy. -/
def rawTypeTruthy : Option RawType → Bool
  | none => false
  | some (RawType.strT []) => false
  | some _ => true

/-- Split a character list at every `','` (the comma occurrences matched by
the JavaScript regex `/\s*,\s*/`).  Always returns at least one piece. -/
def splitComma : List Char → List (List Char)
  | [] => [[]]
  | c :: rest =>
    if c = ',' then [] :: splitComma rest
    else
      match splitComma rest with
      | [] => [[c]]
      | p :: ps => (c :: p) :: ps

/-- Strip leading whitespace from a piece. -/
def dropLeadingWs (s : List Char) : List Char := s.dropWhile Char.isWhitespace

/-- Strip trailing whitespace from a piece. -/
def dropTrailingWs (s : List Char) : List Char :=
  (s.reverse.dropWhile Char.isWhitespace).reverse

/-- Trim the pieces after the first: interior pieces lose whitespace on both
sides, the final piece only loses its leading whitespace. -/
def trimRest : List (List Char) → List (List Char)
  | [] => []
  | [q] => [dropLeadingWs q]
  | q :: qs => dropLeadingWs (dropTrailingWs q) :: trimRest qs

/-- Models `String.prototype.split(/\s*,\s*/)`: split at each comma and discard the
whitespace adjacent to the comma.  The whitespace consumed by `\s*` on either
side of a `','` is exactly the trailing whitespace of the piece before it and
the leading whitespace of the piece after it, so the split is modelled as
`splitComma` followed by trimming those boundaries. -/
def jsSplitTypes (s : List Char) : List (List Char) :=
  match splitComma s with
  | [] => []
  | [p] => [p]
  | p :: ps => dropTrailingWs p :: trimRest ps

/-- One constructor per `throw` site in `src/typeOfSchema.ts`. -/
inductive TypeErr where
  /-- Models `Invalid schema type ...` (the `type` field is neither string nor array) -/
  | invalidSchemaType
  /-- Models `Multiple type specification of '...' must include 'null'` -/
  | multiMustIncludeNull
  /-- Models `Multiple type specification of '...' can only include one non-null JSON type` -/
  | multiOnlyOneNonNull
deriving DecidableEq, Repr

/-- The conditional chain of `isTypeNullable` over the extracted `types`
list: a single type or an all-`null` list is not nullable; a multi-entry
list must contain `null` and have exactly two entries. -/
def isTypeNullableTypes (types : List (List Char)) : Except TypeErr Bool :=
  if types.length = 1 ∨ (types.filter (fun t => t ≠ nullChars)).length = 0 then
    Except.ok false
  else if ¬ (nullChars ∈ types) then
    Except.error TypeErr.multiMustIncludeNull
  else if types.length ≠ 2 then
    Except.error TypeErr.multiOnlyOneNonNull
  else
    Except.ok true

/-- Models `isTypeNullable` (`src/typeOfSchema.ts` lines 4-27): whether a schema's
`type` field declares a two-entry nullable type, accepting both the array form
and the comma-separated string form. -/
def isTypeNullable (rawType : Option RawType) : Except TypeErr Bool :=
  if rawTypeTruthy rawType then
    match rawType with
    | some (RawType.strT s) => isTypeNullableTypes (jsSplitTypes s)
    | some (RawType.arrT ts) => isTypeNullableTypes ts
    | some RawType.otherT => Except.error TypeErr.invalidSchemaType
    | none => Except.ok false
  else
    Except.ok false

/-- Models `extractType` (`src/typeOfSchema.ts` lines 29-34):
`schemaType.replace(/(\s|,|null)/g, '')`, removing every whitespace
character, comma, and occurrence of the substring `null`, scanning left to
right as the global regex does. -/
def extractType : List Char → List Char
  | [] => []
  | 'n' :: 'u' :: 'l' :: 'l' :: rest => extractType rest
  | c :: rest =>
    if c.isWhitespace ∨ c = ',' then extractType rest
    else c :: extractType rest

/-- The closed set of shape categories (`SCHEMA_TYPE` in
`src/types/JSONSchema.ts`). -/
inductive SCHEMA_TYPE where
  | ALL_OF | UNNAMED_SCHEMA | ANY_OF | BOOLEAN | NAMED_SCHEMA | NULL | NUMBER
  | STRING | ENUM | OBJECT | ONE_OF | TYPED_ARRAY | REFERENCE | UNION
deriving DecidableEq, Repr

/-- One constructor per `throw` site of `typeOfSchema`. -/
inductive ShapeErr where
  /-- Models `Type arrays must have at least one element` -/
  | emptyTypeArray
  /-- Models `Array type specifiers cannot contain more than 2 types.` -/
  | tooManyTypes
  /-- Models `Type arrays with more than one element must have a null item.` -/
  | twoTypesWithoutNull
  /-- Models `'...' is an unsupported type.` -/
  | unsupportedType (t : List Char)
  /-- the `type` field is neither a string nor an array of strings, so the
  string operations of `extractType` would fail on it -/
  | nonStringType
deriving DecidableEq, Repr

/-- The fields of a schema node consulted by `typeOfSchema`.  Presence of
`allOf`/`anyOf`/`oneOf`/`$ref`/`enum` is recorded as a Boolean (all of those
are truthy whenever present); `items` records, when present, whether it is an
array.  `$ref` is spelled `ref`. -/
structure SchemaHead where
  allOf : Bool
  anyOf : Bool
  oneOf : Bool
  ref : Bool
  items : Option Bool
  enum : Bool
  type : Option RawType
deriving DecidableEq, Repr

/-- The `switch (extractType(schemaType))` dispatch at the end of
`typeOfSchema`: `case undefined` and `case 'object'` both fall through to
`NAMED_SCHEMA`; an unrecognized string throws, quoting the pre-`extractType`
string. -/
def dispatchType : Option (List Char) → Except ShapeErr SCHEMA_TYPE
  | none => Except.ok SCHEMA_TYPE.NAMED_SCHEMA
  | some t =>
    let e := extractType t
    if e = "string".data then Except.ok SCHEMA_TYPE.STRING
    else if e = "number".data then Except.ok SCHEMA_TYPE.NUMBER
    else if e = "integer".data then Except.ok SCHEMA_TYPE.NUMBER
    else if e = "boolean".data then Except.ok SCHEMA_TYPE.BOOLEAN
    else if e = "object".data then Except.ok SCHEMA_TYPE.NAMED_SCHEMA
    else Except.error (ShapeErr.unsupportedType t)

/-- The tail of `typeOfSchema` once every keyword check failed: the
`if (schemaType === 'null')` test followed by `dispatchType`, applied to a
plain (string or absent) type. -/
def classifyPlainType (schemaType : Option (List Char)) : Except ShapeErr SCHEMA_TYPE :=
  match schemaType with
  | some t => if t = nullChars then Except.ok SCHEMA_TYPE.NULL else dispatchType (some t)
  | none => dispatchType none

/-- The `type`-field part of `typeOfSchema` (everything after the keyword
checks): validates an array-valued `type` and dispatches on the surviving
entry. -/
def classifyByTypeField : Option RawType → Except ShapeErr SCHEMA_TYPE
  | some (RawType.arrT ts) =>
    if ts.length = 0 then Except.error ShapeErr.emptyTypeArray
    else if ts.length > 2 then Except.error ShapeErr.tooManyTypes
    else if ts.length = 2 ∧ ¬ (nullChars ∈ ts) then Except.error ShapeErr.twoTypesWithoutNull
    else
      match ts.filter (fun t => t ≠ nullChars) with
      | [] => Except.ok SCHEMA_TYPE.NULL
      | t :: _ => classifyPlainType (some t)
  | some (RawType.strT t) => classifyPlainType (some t)
  | some RawType.otherT => Except.error ShapeErr.nonStringType
  | none => classifyPlainType none

/-- Models `typeOfSchema` (`src/typeOfSchema.ts` lines 39-83): first-match-wins
classification of a schema node into one shape category. -/
def typeOfSchema (s : SchemaHead) : Except ShapeErr SCHEMA_TYPE :=
  if s.allOf then Except.ok SCHEMA_TYPE.ALL_OF
  else if s.anyOf then Except.ok SCHEMA_TYPE.ANY_OF
  else if s.oneOf then Except.ok SCHEMA_TYPE.ONE_OF
  else if s.ref then Except.ok SCHEMA_TYPE.REFERENCE
  else if s.items.isSome then Except.ok SCHEMA_TYPE.TYPED_ARRAY
  else if s.enum then Except.ok SCHEMA_TYPE.ENUM
  else classifyByTypeField s.type

/-- The `type:` tag that `parseNonLiteral` (`src/parser.ts` lines 84-262)
gives the AST node produced for each shape category; `none` when the branch
throws or the `switch` has no case for the category (`REFERENCE` throws
`Refs should have been resolved by the resolver!`, and `ENUM` has no case in
this source file's `switch`).  For `TYPED_ARRAY` the branch picks `TUPLE`
when `Array.isArray(schema.items)` and `ARRAY` otherwise.  The tags are the
`type` discriminant strings of the produced AST nodes. -/
def parseNonLiteralAstTag (shape : SCHEMA_TYPE) (itemsIsArray : Bool) : Option String :=
  match shape with
  | SCHEMA_TYPE.ALL_OF => some "INTERSECTION"
  | SCHEMA_TYPE.ANY_OF => some "UNION"
  | SCHEMA_TYPE.ONE_OF => some "UNION"
  | SCHEMA_TYPE.BOOLEAN => some "BOOLEAN"
  | SCHEMA_TYPE.NAMED_SCHEMA => some "INTERFACE"
  | SCHEMA_TYPE.UNNAMED_SCHEMA => some "INTERFACE"
  | SCHEMA_TYPE.NULL => some "NULL"
  | SCHEMA_TYPE.NUMBER => some "NUMBER"
  | SCHEMA_TYPE.OBJECT => some "OBJECT"
  | SCHEMA_TYPE.REFERENCE => none
  | SCHEMA_TYPE.STRING => some "STRING"
  | SCHEMA_TYPE.TYPED_ARRAY => some (if itemsIsArray then "TUPLE" else "ARRAY")
  | SCHEMA_TYPE.UNION => some "UNION"
  | SCHEMA_TYPE.ENUM => none

/-! ## The AST (`src/types/AST.ts`, reconstructed from its construction sites
in `src/parser.ts` and its uses in `src/generator.ts`)

Every AST node carries the common optional fields `comment`, `keyName` and
`standaloneName` plus a kind-specific payload. -/

mutual
inductive AST where
  | mk (comment : Option String) (keyName : Option String)
       (standaloneName : Option String) (kind : ASTKind)

inductive ASTKind where
  | ANY
  | BOOLEAN
  | NUMBER
  | NULL
  | OBJECT
  | STRING
  | LITERAL (params : JSValue)
  | REFERENCE (params : String)
  | CUSTOM_TYPE (params : String)
  | ARRAY (params : AST)
  | TUPLE (minItems : Nat) (maxItems : Option Nat) (params : List AST)
          (spreadParam : Option AST)
  | UNION (params : List AST)
  | INTERSECTION (params : List AST)
  | ENUM (params : List AST)
  | INTERFACE (params : List TInterfaceParam)

inductive TInterfaceParam where
  | mk (keyName : String) (ast : AST) (isRequired : Bool) (isNullable : Bool)
       (isPatternProperty : Bool) (isUnreachableDefinition : Bool)
       (default : Option JSValue)
end

def AST.comment : AST → Option String
  | AST.mk c _ _ _ => c

def AST.keyName : AST → Option String
  | AST.mk _ k _ _ => k

def AST.standaloneName : AST → Option String
  | AST.mk _ _ s _ => s

def AST.kind : AST → ASTKind
  | AST.mk _ _ _ k => k

/-- The `type` discriminant strings of the AST (`AST_TYPE` in
`src/types/AST.ts`). -/
inductive AST_TYPE where
  | ANY | ARRAY | BOOLEAN | CUSTOM_TYPE | ENUM | INTERFACE | INTERSECTION
  | LITERAL | NUMBER | NULL | OBJECT | REFERENCE | STRING | TUPLE | UNION
deriving DecidableEq, Repr

/-- The `type` field of an AST node. -/
def ASTKind.type : ASTKind → AST_TYPE
  | ASTKind.ANY => AST_TYPE.ANY
  | ASTKind.BOOLEAN => AST_TYPE.BOOLEAN
  | ASTKind.NUMBER => AST_TYPE.NUMBER
  | ASTKind.NULL => AST_TYPE.NULL
  | ASTKind.OBJECT => AST_TYPE.OBJECT
  | ASTKind.STRING => AST_TYPE.STRING
  | ASTKind.LITERAL _ => AST_TYPE.LITERAL
  | ASTKind.REFERENCE _ => AST_TYPE.REFERENCE
  | ASTKind.CUSTOM_TYPE _ => AST_TYPE.CUSTOM_TYPE
  | ASTKind.ARRAY _ => AST_TYPE.ARRAY
  | ASTKind.TUPLE _ _ _ _ => AST_TYPE.TUPLE
  | ASTKind.UNION _ => AST_TYPE.UNION
  | ASTKind.INTERSECTION _ => AST_TYPE.INTERSECTION
  | ASTKind.ENUM _ => AST_TYPE.ENUM
  | ASTKind.INTERFACE _ => AST_TYPE.INTERFACE

def AST.type (a : AST) : AST_TYPE := a.kind.type

/-- Models `hasStandaloneName` (type guard in `src/types/AST.ts`). -/
def hasStandaloneName (a : AST) : Bool := a.standaloneName.isSome

/-- Models `hasComment` (type guard in `src/types/AST.ts`). -/
def hasComment (a : AST) : Bool := a.comment.isSome

def TInterfaceParam.keyName : TInterfaceParam → String
  | TInterfaceParam.mk k _ _ _ _ _ _ => k

def TInterfaceParam.ast : TInterfaceParam → AST
  | TInterfaceParam.mk _ a _ _ _ _ _ => a

def TInterfaceParam.isRequired : TInterfaceParam → Bool
  | TInterfaceParam.mk _ _ r _ _ _ _ => r

def TInterfaceParam.isNullable : TInterfaceParam → Bool
  | TInterfaceParam.mk _ _ _ n _ _ _ => n

def TInterfaceParam.isPatternProperty : TInterfaceParam → Bool
  | TInterfaceParam.mk _ _ _ _ p _ _ => p

def TInterfaceParam.isUnreachableDefinition : TInterfaceParam → Bool
  | TInterfaceParam.mk _ _ _ _ _ u _ => u

def TInterfaceParam.default : TInterfaceParam → Option JSValue
  | TInterfaceParam.mk _ _ _ _ _ _ d => d

/-! ## Code generator (`src/generator.ts`)

`toSafeString` lives in `src/utils.ts`, which is not part of the sources
under study; every generator definition therefore takes the function as an
explicit parameter `safe`, and the theorems hold for an arbitrary choice. -/

/-- Models `JSON.stringify` string escaping, restricted to the quote and backslash
escapes (control-character escapes are irrelevant to the claims). -/
def jsonEscapeChar (c : Char) : String :=
  if c = '\\' then "\\\\"
  else if c = '"' then "\\\""
  else String.singleton c

def jsonEscape (s : String) : String := String.join (s.data.map jsonEscapeChar)

mutual
/-- Models `JSON.stringify` on a JSON value (used for `LITERAL` rendering). -/
def jsonStringify : JSValue → String
  | JSValue.null => "null"
  | JSValue.bool true => "true"
  | JSValue.bool false => "false"
  | JSValue.num n => toString n
  | JSValue.str s => "\"" ++ jsonEscape s ++ "\""
  | JSValue.arr l => "[" ++ jsonStringifyList l ++ "]"
  | JSValue.obj => "\x7b\x7d"

def jsonStringifyList : List JSValue → String
  | [] => ""
  | [x] => jsonStringify x
  | x :: y :: xs => jsonStringify x ++ "," ++ jsonStringifyList (y :: xs)
end

/-- One constructor per `throw` site reachable from `generateRawType`. -/
inductive GenErr where
  /-- Models `Min tupple length must be smaller than the number items defined` -/
  | minTupleLength
  /-- Models `Unknown AST type.` -/
  | unknownAstType
  /-- Models `Expected an AST type of '...', but received a '...'` (`expectAstType`) -/
  | expectedAstType (expected actual : AST_TYPE)
  /-- Models `'AnyOf' and 'OneOf' entities can only reference named interfaces.` -/
  | unionMemberNotNamed
  /-- Models `Enum items must be of type 'string', 'number' or 'boolean'` -/
  | enumMemberBadType
  /-- Models `No members` -/
  | noMembers
deriving DecidableEq, Repr

/-- Models `\w` or `$`. -/
def isWordOrDollar (c : Char) : Bool :=
  ('A' ≤ c ∧ c ≤ 'Z') ∨ ('a' ≤ c ∧ c ≤ 'z') ∨ ('0' ≤ c ∧ c ≤ '9') ∨ c = '_' ∨ c = '$'

/-- Models `[A-Za-z_$]` on the first character. -/
def firstCharOk : List Char → Bool
  | c :: _ => ('A' ≤ c ∧ c ≤ 'Z') ∨ ('a' ≤ c ∧ c ≤ 'z') ∨ c = '_' ∨ c = '$'
  | [] => false

/-- Models `escapeKeyName` (`src/generator.ts` lines 452-457). -/
def escapeKeyName (keyName : String) : String :=
  if keyName.length ≠ 0 ∧ firstCharOk keyName.data ∧ keyName.data.all isWordOrDollar then
    keyName
  else
    jsonStringify (JSValue.str keyName)

/-- Models `generateComment` (`src/generator.ts` lines 407-409). -/
def generateComment (comment : String) : String :=
  String.intercalate "\n"
    ("/**" :: ((comment.splitOn "\n").map (fun l => " * " ++ l) ++ [" */"]))

/-- Models `wrapInterface` (`src/generator.ts` lines 343-345). -/
def wrapInterface (rendered : String) : String := "\x7b\n" ++ rendered ++ "\n\x7d"

/-- Models `'[' + params.join(', ') + ']'` (the `paramsToString` closure of the
`TUPLE` branch of `generateRawType`). -/
def paramsToString (params : List String) : String :=
  "[" ++ String.intercalate ", " params ++ "]"

/-- The `for` loop of the `TUPLE` branch: starting from the rendered prefix
of length `minItems`, push each further element onto `cumulativeParamsList`
and record the bracketed form of each extension. -/
def tupleUnionLoop (cumulative : List String) : List String → List String
  | [] => []
  | p :: rest =>
    paramsToString (cumulative ++ [p]) :: tupleUnionLoop (cumulative ++ [p]) rest

/-- Models `typesToUnion` of the `TUPLE` branch of `generateRawType`: the initial
entry is `paramsToString` of the length-`minItems` prefix — the source
pushes exactly that string in both arms of its `if` (when the prefix is
empty, `paramsToString []` is `"[]"`) — followed by the loop entries. -/
def tupleUnionList (minItems : Nat) (paramsList : List String) : List String :=
  paramsToString (paramsList.take minItems)
    :: tupleUnionLoop (paramsList.take minItems) (paramsList.drop minItems)

/-- The comparator passed to `members.sort` in `generateUnionMembers`:
`(a, _b) => a === 'null' ? 1 : -1`. -/
def unionCompare (a _b : String) : Int := if a = "null" then 1 else -1

/-- One insertion step of the comparison sort driven by `unionCompare`. -/
def insertMember (a : String) : List String → List String
  | [] => [a]
  | b :: rest => if unionCompare a b ≤ 0 then a :: b :: rest else b :: insertMember a rest

/-- Models `Array.prototype.sort(unionCompare)`, modelled as a stable comparison
(insertion) sort driven by the comparator. -/
def sortMembers (l : List String) : List String := l.foldr insertMember []

/-- The member-rendering `map` of `generateUnionMembers`: a `NULL` member
renders as `null`; any other member must carry a standalone name. -/
def unionMemberStrings (safe : String → String) : List AST → Except GenErr (List String)
  | [] => Except.ok []
  | a :: rest =>
    match (if a.type = AST_TYPE.NULL then Except.ok "null"
           else match a.standaloneName with
             | some n => Except.ok (safe n)
             | none => Except.error GenErr.unionMemberNotNamed) with
    | Except.error e => Except.error e
    | Except.ok s =>
      match unionMemberStrings safe rest with
      | Except.error e => Except.error e
      | Except.ok r => Except.ok (s :: r)

/-- Models `generateUnionMembers` (`src/generator.ts` lines 204-216). -/
def generateUnionMembers (safe : String → String) (ps : List AST) : Except GenErr String :=
  match unionMemberStrings safe ps with
  | Except.error e => Except.error e
  | Except.ok members => Except.ok (String.intercalate "|" (sortMembers members))

/-- The member map of `generateEnumMembers`: each member must be a
`LITERAL` (`expectAstType`) holding a string, number or boolean. -/
def enumMemberStrings : List AST → Except GenErr (List String)
  | [] => Except.ok []
  | a :: rest =>
    match a.kind with
    | ASTKind.LITERAL v =>
      match (match v with
             | JSValue.str s => Except.ok ("\"" ++ s ++ "\"")
             | JSValue.num n => Except.ok (toString n)
             | JSValue.bool b => Except.ok (toString b)
             | _ => Except.error GenErr.enumMemberBadType) with
      | Except.error e => Except.error (e : GenErr)
      | Except.ok s =>
        match enumMemberStrings rest with
        | Except.error e => Except.error e
        | Except.ok r => Except.ok (s :: r)
    | other => Except.error (GenErr.expectedAstType AST_TYPE.LITERAL other.type)

/-- Models `generateEnumMembers` (`src/generator.ts` lines 186-199). -/
def generateEnumMembers (ps : List AST) : Except GenErr String :=
  match enumMemberStrings ps with
  | Except.error e => Except.error e
  | Except.ok ms => Except.ok (String.intercalate "|" ms)

/-- Models `generateIntersectionRefMembers`: references of an intersection — the
members with a standalone name, rendered as safe names. -/
def interRefStrings (safe : String → String) (ps : List AST) : List String :=
  (ps.filter (fun a => hasStandaloneName a)).map (fun a => safe (a.standaloneName.getD ""))

mutual
/-- Models `generateRawType` (`src/generator.ts` lines 94-162).  A node with a
standalone name renders as that name; otherwise the node's kind is
dispatched.  `ANY` and `CUSTOM_TYPE` have no case in this source file's
`switch` and hit `default: throw`.  The `INTERFACE` and `INTERSECTION`
branches inline `generateInterfaceMembers` and
`generateIntersectionMembers`; named wrappers equal to those source
functions are defined after this block. -/
def generateRawType (safe : String → String) : AST → Except GenErr String
  | AST.mk _ _ (some n) _ => Except.ok (safe n)
  | AST.mk _ _ none kind =>
    match kind with
    | ASTKind.ARRAY p =>
      (match generateRawType safe p with
       | Except.error e => Except.error e
       | Except.ok t =>
         Except.ok (if t.endsWith "\"" then "(" ++ t ++ ")[]" else t ++ "[]"))
    | ASTKind.BOOLEAN => Except.ok "boolean"
    | ASTKind.INTERFACE ps =>
      (match memberLines safe ps with
       | Except.error e => Except.error e
       | Except.ok lines => Except.ok (String.intercalate "\n" lines))
    | ASTKind.INTERSECTION ps =>
      (match interMemberStrings safe ps with
       | Except.error e => Except.error e
       | Except.ok memberStrs =>
         let members := String.intercalate ",\n" memberStrs
         let refs := String.intercalate "&" (interRefStrings safe ps)
         if members.length > 0 ∧ refs.length > 0 then
           Except.ok (wrapInterface members ++ "\n& " ++ refs)
         else if members.length > 0 then Except.ok (wrapInterface members)
         else if refs.length > 0 then Except.ok refs
         else Except.error GenErr.noMembers)
    | ASTKind.LITERAL v => Except.ok (jsonStringify v)
    | ASTKind.NUMBER => Except.ok "number"
    | ASTKind.NULL => Except.ok "null"
    | ASTKind.OBJECT => Except.ok "object"
    | ASTKind.REFERENCE p => Except.ok p
    | ASTKind.STRING => Except.ok "string"
    | ASTKind.TUPLE minItems _ params _ =>
      (match mapGenerateType safe params with
       | Except.error e => Except.error e
       | Except.ok paramsList =>
         if minItems ≥ paramsList.length then Except.error GenErr.minTupleLength
         else Except.ok (String.intercalate "|" (tupleUnionList minItems paramsList)))
    | ASTKind.UNION ps => generateUnionMembers safe ps
    | ASTKind.ENUM ps => generateEnumMembers ps
    | ASTKind.ANY => Except.error GenErr.unknownAstType
    | ASTKind.CUSTOM_TYPE _ => Except.error GenErr.unknownAstType

/-- Models `astParams.map(param => generateType(param, options))` of the `TUPLE`
branch (exceptions propagate out of the `map`). -/
def mapGenerateType (safe : String → String) : List AST → Except GenErr (List String)
  | [] => Except.ok []
  | x :: xs =>
    match generateRawType safe x with
    | Except.error e => Except.error e
    | Except.ok s =>
      match mapGenerateType safe xs with
      | Except.error e => Except.error e
      | Except.ok rest => Except.ok (s :: rest)

/-- The member `map` of `generateInterfaceMembers` (`src/generator.ts`
lines 347-365); the source's up-front `filter` over
`isPatternProperty`/`isUnreachableDefinition` is realized by skipping those
members during the recursion. -/
def memberLines (safe : String → String) : List TInterfaceParam → Except GenErr (List String)
  | [] => Except.ok []
  | TInterfaceParam.mk key ast isReq isNul isPat isUnreach _ :: ms =>
    if isPat ∨ isUnreach then memberLines safe ms
    else
      match generateRawType safe ast with
      | Except.error e => Except.error e
      | Except.ok type =>
        match memberLines safe ms with
        | Except.error e => Except.error e
        | Except.ok rest =>
          Except.ok
            (((if hasComment ast then generateComment (ast.comment.getD "") ++ "\n" else "")
              ++ escapeKeyName key ++ (if isReq then "" else "?") ++ ": "
              ++ (if hasStandaloneName ast then safe type else type)
              ++ (if isNul then "| null" else "")) :: rest)

/-- Models `generateIntersectionInterfaceMembers`: the anonymous members of an
intersection must be `INTERFACE`-typed (`expectAstType`) and render as
member lists. -/
def interMemberStrings (safe : String → String) : List AST → Except GenErr (List String)
  | [] => Except.ok []
  | AST.mk _ _ (some _) _ :: rest => interMemberStrings safe rest
  | AST.mk _ _ none kind :: rest =>
    match kind with
    | ASTKind.INTERFACE ps =>
      (match memberLines safe ps with
       | Except.error e => Except.error e
       | Except.ok lines =>
         match interMemberStrings safe rest with
         | Except.error e => Except.error e
         | Except.ok r => Except.ok (String.intercalate "\n" lines :: r))
    | other => Except.error (GenErr.expectedAstType AST_TYPE.INTERFACE other.type)
end

/-- Models `generateType` (`src/generator.ts` lines 90-92) simply forwards to
`generateRawType`. -/
def generateType (safe : String → String) (a : AST) : Except GenErr String :=
  generateRawType safe a

/-- Models `generateInterfaceMembers` (`src/generator.ts` lines 347-365). -/
def generateInterfaceMembers (safe : String → String) (ps : List TInterfaceParam) :
    Except GenErr String :=
  match memberLines safe ps with
  | Except.error e => Except.error e
  | Except.ok lines => Except.ok (String.intercalate "\n" lines)

/-- Models `generateIntersectionMembers` (`src/generator.ts` lines 221-236). -/
def generateIntersectionMembers (safe : String → String) (ps : List AST) :
    Except GenErr String :=
  match interMemberStrings safe ps with
  | Except.error e => Except.error e
  | Except.ok memberStrs =>
    let members := String.intercalate ",\n" memberStrs
    let refs := String.intercalate "&" (interRefStrings safe ps)
    if members.length > 0 ∧ refs.length > 0 then
      Except.ok (wrapInterface members ++ "\n& " ++ refs)
    else if members.length > 0 then Except.ok (wrapInterface members)
    else if refs.length > 0 then Except.ok refs
    else Except.error GenErr.noMembers

/-! ## Default-value validation (`src/parser.ts` and the `parseSchema`
variant in `src/unnamed/part_002`) -/

/-- One constructor per `throw` site of the property-parsing helpers. -/
inductive ParseErr where
  /-- Models `Property KEY in schema ID is not required but has no default. Optional
  fields must have a specified default value.` -/
  | missingDefault (key : String) (schemaId : Option String)
  /-- Models `The default of D in schema ID is not a valid default for type T.` -/
  | invalidDefault (d : JSValue) (schemaId : Option String) (astType : AST_TYPE)
  /-- Models `A default of null in schema ID is not a allowed for a property that is
  not nullable.` (`src/unnamed/part_002`) -/
  | nullDefaultNotNullable (schemaId : Option String)
  /-- Models `Unknown AST type.` (the `default:` arm of the `validateDefault`
  variant in `src/unnamed/part_002`) -/
  | unknownAstTypeDefault

/-- Models `validateDefault` (`src/parser.ts` lines 322-352): whether a recorded
default value is structurally compatible with a property's AST kind.  The
kinds absent from the `switch` (`ENUM`) fall through to the final
`return false`. -/
def validateDefault (ast : AST) (defaultValue : JSValue) : Bool :=
  match ast.type with
  | AST_TYPE.ANY => true
  | AST_TYPE.ARRAY | AST_TYPE.TUPLE =>
    (match defaultValue with
     | JSValue.arr l => l.length = 0
     | _ => false)
  | AST_TYPE.BOOLEAN =>
    (match defaultValue with
     | JSValue.bool _ => true
     | _ => false)
  | AST_TYPE.INTERFACE | AST_TYPE.INTERSECTION | AST_TYPE.OBJECT
  | AST_TYPE.REFERENCE | AST_TYPE.UNION | AST_TYPE.CUSTOM_TYPE =>
    defaultValue.isNull
  | AST_TYPE.LITERAL =>
    (match defaultValue with
     | JSValue.bool _ => true
     | JSValue.str _ => true
     | JSValue.num _ => true
     | _ => false)
  | AST_TYPE.NUMBER =>
    (match defaultValue with
     | JSValue.num _ => true
     | _ => false)
  | AST_TYPE.NULL => defaultValue.isNull
  | AST_TYPE.STRING =>
    (match defaultValue with
     | JSValue.str _ => true
     | _ => false)
  | AST_TYPE.ENUM => false

/-- One entry of `schema.properties`, together with the AST that
`parse(value, ...)` yields for its value schema (the property loop of
`parseSchema` treats that call as a black box). -/
structure PropSchema where
  key : String
  default : Option JSValue
  ast : AST

/-- The `default:` field stored on the produced member:
`typeof value.default === 'string' ? `'...'` : value.default`. -/
def renderDefault : Option JSValue → Option JSValue
  | some (JSValue.str s) => some (JSValue.str ("\x27" ++ s ++ "\x27"))
  | d => d

/-- The `value.default !== undefined && !validateDefault(ast, value.default)`
check of the `parseSchema` property loop, as a function of the recorded
default. -/
def checkDefaultValue (schemaId : Option String) (ast0 : AST) :
    Option JSValue → Except ParseErr Unit
  | some d =>
    if ¬ validateDefault ast0 d then
      Except.error (ParseErr.invalidDefault d schemaId ast0.type)
    else Except.ok ()
  | none => Except.ok ()

/-- The property loop of `parseSchema` (`src/parser.ts` lines 358-386,
`map(schema.properties, ...)`): a property that is not in `required` must
carry a default, and a recorded default must pass `validateDefault`.  The
trailing `patternProperties`/`definitions` sections of `parseSchema` never
raise these errors and are outside the claims, so the loop is modelled on
the `properties` list alone. -/
def parseSchemaProps (schemaId : Option String) (required : List String) :
    List PropSchema → Except ParseErr (List TInterfaceParam)
  | [] => Except.ok []
  | p :: ps =>
    let required_ := required.contains p.key
    if ¬ required_ ∧ p.default.isNone then
      Except.error (ParseErr.missingDefault p.key schemaId)
    else
      match checkDefaultValue schemaId p.ast p.default with
      | Except.error e => Except.error e
      | Except.ok () =>
        match parseSchemaProps schemaId required ps with
        | Except.error e => Except.error e
        | Except.ok rest =>
          Except.ok (TInterfaceParam.mk p.key p.ast (required.contains p.key) false false
            false (renderDefault p.default) :: rest)

/-- The `validateDefault` variant of `src/unnamed/part_002` (lines 652-679):
no `ANY` case, no `CUSTOM_TYPE` case, and a `default:` arm that throws
`Unknown AST type.`. -/
def validateDefaultP2 (ast : AST) (defaultValue : JSValue) : Except ParseErr Bool :=
  match ast.type with
  | AST_TYPE.ARRAY | AST_TYPE.TUPLE =>
    Except.ok (match defaultValue with
     | JSValue.arr l => l.length = 0
     | _ => false)
  | AST_TYPE.BOOLEAN =>
    Except.ok (match defaultValue with
     | JSValue.bool _ => true
     | _ => false)
  | AST_TYPE.INTERFACE | AST_TYPE.INTERSECTION | AST_TYPE.OBJECT
  | AST_TYPE.REFERENCE | AST_TYPE.UNION =>
    Except.ok defaultValue.isNull
  | AST_TYPE.LITERAL =>
    Except.ok (match defaultValue with
     | JSValue.str _ => true
     | JSValue.num _ => true
     | JSValue.bool _ => true
     | _ => false)
  | AST_TYPE.NUMBER =>
    Except.ok (match defaultValue with
     | JSValue.num _ => true
     | _ => false)
  | AST_TYPE.NULL => Except.ok defaultValue.isNull
  | AST_TYPE.STRING =>
    Except.ok (match defaultValue with
     | JSValue.str _ => true
     | _ => false)
  | _ => Except.error ParseErr.unknownAstTypeDefault

/-- Models `value.default === null`. -/
def isSomeNull : Option JSValue → Bool
  | some JSValue.null => true
  | _ => false

/-- The default-acceptance checks of the `parseSchema` variant in
`src/unnamed/part_002` (lines 694-699), for one property: `ast` is the
parsed property AST, `nullable` is `value.nullable || isTypeNullable(value)`
and `dflt` is `value.default`.  A literal-`null` default on a non-nullable
property without a standalone name throws; otherwise, on a non-nullable
property a recorded default must pass `validateDefault` (part_002 variant);
a nullable property skips both checks. -/
def checkPropDefault (schemaId : Option String) (ast : AST) (nullable : Bool)
    (dflt : Option JSValue) : Except ParseErr Unit :=
  if isSomeNull dflt ∧ ¬ nullable ∧ ¬ hasStandaloneName ast then
    Except.error (ParseErr.nullDefaultNotNullable schemaId)
  else if ¬ nullable then
    match dflt with
    | some d =>
      (match validateDefaultP2 ast d with
       | Except.error e => Except.error e
       | Except.ok v =>
         if ¬ v then Except.error (ParseErr.invalidDefault d schemaId ast.type)
         else Except.ok ())
    | none => Except.ok ()
  else Except.ok ()

/-! ## The cycle-safe parser (`src/parser.ts` lines 23-57)

`parse` keys its `processed` cache on the identity of the schema node
object; distinct nodes sharing content are distinct keys, and one node
reached twice hits the same key.  The embedding therefore represents a
schema graph by numbering its node objects `0, ..., size-1` and giving each
node the list of node numbers it recurses into (its sub-schema objects);
an AST *instance* is the number the parser assigns when it installs the
node's cache entry (the source installs `processed.set(schema, ast)` before
recursing into children and fills `ast` in place afterwards). -/

/-- A schema graph: node `i`'s child object numbers are `children[i]`. -/
structure SchemaGraph where
  children : List (List Nat)
deriving DecidableEq, Repr

def SchemaGraph.size (G : SchemaGraph) : Nat := G.children.length

def SchemaGraph.childrenOf (G : SchemaGraph) (s : Nat) : List Nat :=
  G.children.getD s []

/-- Well-formedness: every child reference is a node of the graph. -/
def SchemaGraph.WF (G : SchemaGraph) : Prop :=
  ∀ l ∈ G.children, ∀ c ∈ l, c < G.children.length

instance (G : SchemaGraph) : Decidable G.WF :=
  inferInstanceAs (Decidable (∀ l ∈ G.children, ∀ c ∈ l, c < G.children.length))

/-- The mutable state of one `parse` call tree: the `processed` cache
(most recent entry first, as an association list), the next fresh AST
instance number, and the order in which schema nodes were actually
processed (the non-cached visits). -/
structure PState where
  cache : List (Nat × Nat)
  next : Nat
  trace : List Nat
deriving DecidableEq, Repr

/-- Models `processed.get(schema)`. -/
def lookupCache : List (Nat × Nat) → Nat → Option Nat
  | [], _ => none
  | (k, a) :: rest, s => if k = s then some a else lookupCache rest s

/-- The fresh state of one compilation (`processed: Processed = new Map()`). -/
def initState : PState := PState.mk [] 0 []

mutual
/-- Models `parse` (`src/parser.ts` lines 23-57) on the graph skeleton: a cached
node returns its cached AST instance immediately; otherwise a fresh AST
instance is allocated and cached *before* the recursion into the node's
children.  `fuel` bounds the call depth; `none` means the fuel ran out. -/
def parseF (G : SchemaGraph) : Nat → Nat → PState → Option (Nat × PState)
  | 0, _, _ => none
  | fuel + 1, s, st =>
    match lookupCache st.cache s with
    | some a => some (a, st)
    | none =>
      match parseChildren G fuel (G.childrenOf s)
          (PState.mk ((s, st.next) :: st.cache) (st.next + 1) (st.trace ++ [s])) with
      | some st2 => some (st.next, st2)
      | none => none

/-- Parsing the children of a node in order, threading the state. -/
def parseChildren (G : SchemaGraph) : Nat → List Nat → PState → Option PState
  | _, [], st => some st
  | fuel, c :: cs, st =>
    match parseF G fuel c st with
    | some (_, st1) => parseChildren G fuel cs st1
    | none => none
end

/-! ## Structural validator (`src/validator.ts`) and the `compile` gate
(`src/index.ts` lines 10-15) -/

/-- A schema node as seen by the validator: the two integer bounds it
inspects plus the sub-schemas reachable from it, keyed by the member key
under which each is reached. -/
inductive VSchema where
  | node (minItems : Option Int) (maxItems : Option Int)
         (children : List (String × VSchema))

/-- Rule `When both maxItems and minItems are present, maxItems >= minItems`
(`src/validator.ts` lines 7-12); `none` models the rule returning
`undefined` (not applicable). -/
def ruleMaxMin : VSchema → Option Bool
  | VSchema.node mi ma _ =>
    match ma, mi with
    | some maxItems, some minItems => some (maxItems ≥ minItems)
    | _, _ => none

/-- Rule `When maxItems exists, maxItems >= 0` (lines 14-19). -/
def ruleMaxNonneg : VSchema → Option Bool
  | VSchema.node _ ma _ =>
    match ma with
    | some maxItems => some (maxItems ≥ 0)
    | none => none

/-- Rule `When minItems exists, minItems >= 0` (lines 21-26). -/
def ruleMinNonneg : VSchema → Option Bool
  | VSchema.node mi _ _ =>
    match mi with
    | some minItems => some (minItems ≥ 0)
    | none => none

/-- The `rules` map, in insertion order. -/
def rulesList : List (String × (VSchema → Option Bool)) :=
  [("When both maxItems and minItems are present, maxItems >= minItems", ruleMaxMin),
   ("When maxItems exists, maxItems >= 0", ruleMaxNonneg),
   ("When minItems exists, minItems >= 0", ruleMinNonneg)]

mutual
/-- Modelled from the spec: `mapDeep` lives in `src/utils.ts`, which is not
among the sources under study; per the spec the validator "collects every
rule violation across the whole schema graph", so `mapDeep`'s visit order is
modelled as a depth-first enumeration of every node of the schema tree
together with the key under which it is reached (the root under `""`). -/
def allNodes : String → VSchema → List (String × VSchema)
  | key, VSchema.node mi ma ch => (key, VSchema.node mi ma ch) :: allNodesChildren ch

def allNodesChildren : List (String × VSchema) → List (String × VSchema)
  | [] => []
  | (k, c) :: rest => allNodes k c ++ allNodesChildren rest
end

/-- Models `Error at key "KEY" in file "FILE": RULE`. -/
def errString (key filename ruleName : String) : String :=
  "Error at key \"" ++ key ++ "\" in file \"" ++ filename ++ "\": " ++ ruleName

/-- Models `validate` (`src/validator.ts` lines 28-39): for each rule in insertion
order, visit every node of the graph and record a diagnostic wherever the
rule returns `false`. -/
def validate (schema : VSchema) (filename : String) : List String :=
  rulesList.foldl
    (fun errors rule =>
      errors ++ (allNodes "" schema).filterMap
        (fun kn =>
          if rule.2 kn.2 = some false then some (errString kn.1 filename rule.1)
          else none))
    []

/-- The validation gate of `compile` (`src/index.ts` lines 10-15): when
`validate` reports any error the compilation throws before the
normalize/dereference/parse/generate pipeline runs; that downstream pipeline
is abstracted as the parameter `pipeline`. -/
def compile (pipeline : VSchema → String) (schema : VSchema) (name : String) :
    Except (List String) String :=
  let errors := validate schema name
  if errors.length ≠ 0 then Except.error errors
  else Except.ok (pipeline schema)

/-! # Theorems -/

/-! ## C4: classifier precedence -/

/-- Claim C4: `typeOfSchema` returns exactly one category, chosen by a fixed
first-match-wins precedence: the composition keywords win over any declared
`type` (`allOf`, classified `ALL_OF` and parsed as an intersection AST, then
`anyOf`, then `oneOf`, both parsed as union ASTs); then the `$ref` marker;
then the presence of `items` gives the array shape `TYPED_ARRAY` (parsed as
a `TUPLE` AST when `items` is an ordered sequence and as an unbounded
`ARRAY` AST otherwise); then the presence of `enum` gives `ENUM`; only when
all of those are absent is the `type` field consulted
(`classifyByTypeField`). -/
theorem typeOfSchema_precedence (s : SchemaHead) :
    (s.allOf = true → typeOfSchema s = Except.ok SCHEMA_TYPE.ALL_OF)
    ∧ (s.allOf = false → s.anyOf = true → typeOfSchema s = Except.ok SCHEMA_TYPE.ANY_OF)
    ∧ (s.allOf = false → s.anyOf = false → s.oneOf = true →
        typeOfSchema s = Except.ok SCHEMA_TYPE.ONE_OF)
    ∧ (s.allOf = false → s.anyOf = false → s.oneOf = false → s.ref = true →
        typeOfSchema s = Except.ok SCHEMA_TYPE.REFERENCE)
    ∧ (s.allOf = false → s.anyOf = false → s.oneOf = false → s.ref = false →
        s.items.isSome = true → typeOfSchema s = Except.ok SCHEMA_TYPE.TYPED_ARRAY)
    ∧ (s.allOf = false → s.anyOf = false → s.oneOf = false → s.ref = false →
        s.items = none → s.enum = true → typeOfSchema s = Except.ok SCHEMA_TYPE.ENUM)
    ∧ (s.allOf = false → s.anyOf = false → s.oneOf = false → s.ref = false →
        s.items = none → s.enum = false → typeOfSchema s = classifyByTypeField s.type)
    ∧ parseNonLiteralAstTag SCHEMA_TYPE.ALL_OF true = some "INTERSECTION"
    ∧ parseNonLiteralAstTag SCHEMA_TYPE.ANY_OF true = some "UNION"
    ∧ parseNonLiteralAstTag SCHEMA_TYPE.ONE_OF true = some "UNION"
    ∧ (∀ b, parseNonLiteralAstTag SCHEMA_TYPE.TYPED_ARRAY b =
        some (if b then "TUPLE" else "ARRAY")) := by
  refine ⟨?_, ?_, ?_, ?_, ?_, ?_, ?_, rfl, rfl, rfl, fun b => rfl⟩
  all_goals intros
  all_goals simp_all [typeOfSchema]

/-- Witness for C4: on a node carrying every keyword at once, `allOf` wins. -/
theorem typeOfSchema_precedence_witness :
    typeOfSchema (SchemaHead.mk true true true true (some true) true none)
      = Except.ok SCHEMA_TYPE.ALL_OF :=
  (typeOfSchema_precedence (SchemaHead.mk true true true true (some true) true none)).1 rfl

/-! ## C7: `type`-array validation -/

/-- The three `throw` sites guarding an array-valued `type` field. -/
def isArrayShapeErr : ShapeErr → Bool
  | ShapeErr.emptyTypeArray => true
  | ShapeErr.tooManyTypes => true
  | ShapeErr.twoTypesWithoutNull => true
  | _ => false

/-- Models `classifyPlainType` only fails with the unsupported-type error, never
with one of the array-shape errors. -/
theorem classifyPlainType_not_array_err (o : Option (List Char)) (e : ShapeErr)
    (h : classifyPlainType o = Except.error e) : isArrayShapeErr e = false := by
  cases o with
  | none => simp [classifyPlainType, dispatchType] at h
  | some t =>
    simp only [classifyPlainType, dispatchType] at h
    split_ifs at h
    all_goals try (rw [Except.error.injEq] at h ; rw [← h])
    all_goals simp_all [isArrayShapeErr]

/-- A schema whose `type` is the two-element array `["null", "null"]`. -/
def twoNullSchema : SchemaHead :=
  SchemaHead.mk false false false false none false
    (some (RawType.arrT [nullChars, nullChars]))

/-- Claim C7 counterexample: the claim says a `type` array with exactly two
entries that are both `null` fails with a shape error; on
`["null", "null"]` the code instead filters the `null` entries away,
finds the remainder empty, and *succeeds* with the `NULL` category. -/
theorem typeOfSchema_two_null_entries_ok :
    twoNullSchema.type = some (RawType.arrT [nullChars, nullChars])
    ∧ typeOfSchema twoNullSchema = Except.ok SCHEMA_TYPE.NULL :=
  ⟨rfl, rfl⟩

/-- Claim C7 amended: for an array-valued `type`, classification fails with a
shape error exactly when the array is empty, longer than two entries, or has
exactly two entries *none* of which is `null`; otherwise it is accepted and
dispatches on the first non-`null` entry (classifying as `NULL` when every
entry is `null` — in particular `["null", "null"]` is accepted). -/
theorem typeOfSchema_typeArray_amended (s : SchemaHead) (ts : List (List Char))
    (h1 : s.allOf = false) (h2 : s.anyOf = false) (h3 : s.oneOf = false)
    (h4 : s.ref = false) (h5 : s.items = none) (h6 : s.enum = false)
    (h7 : s.type = some (RawType.arrT ts)) :
    ((∃ e, typeOfSchema s = Except.error e ∧ isArrayShapeErr e = true)
        ↔ (ts = [] ∨ 2 < ts.length ∨ (ts.length = 2 ∧ nullChars ∉ ts)))
    ∧ ((ts ≠ [] ∧ ts.length ≤ 2 ∧ (ts.length = 2 → nullChars ∈ ts)) →
        typeOfSchema s =
          (match ts.filter (fun t => t ≠ nullChars) with
           | [] => Except.ok SCHEMA_TYPE.NULL
           | t :: _ => classifyPlainType (some t))) := by
  have hred : typeOfSchema s = classifyByTypeField (some (RawType.arrT ts)) := by
    simp [typeOfSchema, h1, h2, h3, h4, h5, h6, h7]
  rw [hred]
  simp only [classifyByTypeField]
  by_cases c1 : ts.length = 0
  · rw [if_pos c1]
    constructor
    · constructor
      · intro _
        exact Or.inl (List.length_eq_zero.mp c1)
      · intro _
        exact ⟨ShapeErr.emptyTypeArray, rfl, rfl⟩
    · intro hacc
      exact absurd (List.length_eq_zero.mp c1) hacc.1
  · rw [if_neg c1]
    by_cases c2 : ts.length > 2
    · rw [if_pos c2]
      constructor
      · constructor
        · intro _
          exact Or.inr (Or.inl c2)
        · intro _
          exact ⟨ShapeErr.tooManyTypes, rfl, rfl⟩
      · intro hacc
        omega
    · rw [if_neg c2]
      by_cases c3 : ts.length = 2 ∧ ¬ (nullChars ∈ ts)
      · rw [if_pos c3]
        constructor
        · constructor
          · intro _
            exact Or.inr (Or.inr ⟨c3.1, c3.2⟩)
          · intro _
            exact ⟨ShapeErr.twoTypesWithoutNull, rfl, rfl⟩
        · intro hacc
          exact absurd (hacc.2.2 c3.1) c3.2
      · rw [if_neg c3]
        constructor
        · constructor
          · rintro ⟨e, he, harr⟩
            cases hf : ts.filter (fun t => t ≠ nullChars) with
            | nil =>
              rw [hf] at he
              cases he
            | cons t rest =>
              rw [hf] at he
              exact absurd (classifyPlainType_not_array_err _ _ he) (by simp [harr])
          · intro hbad
            rcases hbad with hnil | hlen | hpair
            · exact absurd (by rw [hnil] ; rfl) c1
            · exact absurd hlen c2
            · exact absurd hpair c3
        · intro _
          rfl

/-- Witness for C7 amended: the empty `type` array fails with a shape
error. -/
theorem typeOfSchema_typeArray_amended_witness :
    ∃ e, typeOfSchema (SchemaHead.mk false false false false none false
        (some (RawType.arrT []))) = Except.error e ∧ isArrayShapeErr e = true :=
  (typeOfSchema_typeArray_amended
    (SchemaHead.mk false false false false none false (some (RawType.arrT [])))
    [] rfl rfl rfl rfl rfl rfl rfl).1.mpr (Or.inl rfl)

/-! ## C10: the comma-separated nullable form -/

theorem splitComma_no_comma (t : List Char) (h : ',' ∉ t) : splitComma t = [t] := by
  induction t with
  | nil => rfl
  | cons c rest ih =>
    have hc : ¬ c = ',' := fun e => h (by simp [e])
    have hr : ',' ∉ rest := fun m => h (List.mem_cons_of_mem _ m)
    simp [splitComma, hc, ih hr]

theorem splitComma_append_comma (t s : List Char) (h : ',' ∉ t) :
    splitComma (t ++ ',' :: s) = t :: splitComma s := by
  induction t with
  | nil => simp [splitComma]
  | cons c rest ih =>
    have hc : ¬ c = ',' := fun e => h (by simp [e])
    have hr : ',' ∉ rest := fun m => h (List.mem_cons_of_mem _ m)
    simp [splitComma, hc, ih hr]

theorem dropWhile_all_append (p : Char → Bool) (w x : List Char)
    (hw : ∀ c ∈ w, p c = true) :
    List.dropWhile p (w ++ x) = List.dropWhile p x := by
  induction w with
  | nil => rfl
  | cons c rest ih =>
    rw [List.cons_append, List.dropWhile_cons, if_pos (hw c (by simp))]
    exact ih (fun c m => hw c (by simp [m]))

theorem dropWhile_no_sat (p : Char → Bool) (t : List Char)
    (ht : ∀ c ∈ t, p c = false) :
    List.dropWhile p t = t := by
  cases t with
  | nil => rfl
  | cons c rest =>
    rw [List.dropWhile_cons, if_neg (by simp [ht c (by simp)])]

theorem dropTrailingWs_append_ws (t w : List Char)
    (hw : ∀ c ∈ w, c.isWhitespace = true) (ht : ∀ c ∈ t, c.isWhitespace = false) :
    dropTrailingWs (t ++ w) = t := by
  unfold dropTrailingWs
  rw [List.reverse_append,
    dropWhile_all_append _ _ _ (fun c m => hw c (List.mem_reverse.mp m)),
    dropWhile_no_sat _ _ (fun c m => ht c (List.mem_reverse.mp m)),
    List.reverse_reverse]

theorem dropLeadingWs_ws_append (w t : List Char)
    (hw : ∀ c ∈ w, c.isWhitespace = true) (ht : ∀ c ∈ t, c.isWhitespace = false) :
    dropLeadingWs (w ++ t) = t := by
  unfold dropLeadingWs
  rw [dropWhile_all_append _ _ _ hw, dropWhile_no_sat _ _ ht]

/-- A whitespace character is not a comma. -/
theorem ws_no_comma (w : List Char) (hw : ∀ c ∈ w, c.isWhitespace = true) : ',' ∉ w := by
  intro m
  have := hw ',' m
  simp [Char.isWhitespace] at this

/-- Models `split(/\s*,\s*/)` on `a␣,␣b` (one comma, whitespace only around it)
yields exactly `[a, b]`. -/
theorem jsSplitTypes_two (a w1 w2 b : List Char)
    (hac : ',' ∉ a) (haw : ∀ c ∈ a, c.isWhitespace = false)
    (hw1 : ∀ c ∈ w1, c.isWhitespace = true) (hw2 : ∀ c ∈ w2, c.isWhitespace = true)
    (hbc : ',' ∉ b) (hbw : ∀ c ∈ b, c.isWhitespace = false) :
    jsSplitTypes (a ++ w1 ++ ',' :: (w2 ++ b)) = [a, b] := by
  have hcomma : ',' ∉ a ++ w1 := by
    intro m
    rcases List.mem_append.mp m with m | m
    · exact hac m
    · exact ws_no_comma w1 hw1 m
  have hcomma2 : ',' ∉ w2 ++ b := by
    intro m
    rcases List.mem_append.mp m with m | m
    · exact ws_no_comma w2 hw2 m
    · exact hbc m
  have h1 : splitComma (a ++ w1 ++ ',' :: (w2 ++ b))
      = (a ++ w1) :: splitComma (w2 ++ b) :=
    splitComma_append_comma (a ++ w1) (w2 ++ b) hcomma
  have h2 : splitComma (w2 ++ b) = [w2 ++ b] := splitComma_no_comma _ hcomma2
  unfold jsSplitTypes
  rw [h1, h2]
  show [dropTrailingWs (a ++ w1), dropLeadingWs (w2 ++ b)] = [a, b]
  rw [dropTrailingWs_append_ws a w1 hw1 haw, dropLeadingWs_ws_append w2 b hw2 hbw]

/-- A comma-free string splits into a single piece, untrimmed. -/
theorem jsSplitTypes_single (t : List Char) (h : ',' ∉ t) : jsSplitTypes t = [t] := by
  unfold jsSplitTypes
  rw [splitComma_no_comma t h]

/-- A nonempty string-valued `type` is truthy. -/
theorem rawTypeTruthy_strT (s : List Char) (h : s ≠ []) :
    rawTypeTruthy (some (RawType.strT s)) = true := by
  cases s with
  | nil => exact absurd rfl h
  | cons c r => rfl

/-- Models `['n','u','l','l']` has no comma and no whitespace. -/
theorem nullChars_plain :
    ',' ∉ nullChars ∧ ∀ c ∈ nullChars, c.isWhitespace = false := by
  constructor
  · decide
  · decide

/-- The acceptance step on a two-entry list with one `null`. -/
theorem isTypeNullableTypes_pair (t : List Char) (ht : ¬ t = nullChars) :
    isTypeNullableTypes [t, nullChars] = Except.ok true
    ∧ isTypeNullableTypes [nullChars, t] = Except.ok true := by
  constructor <;> simp [isTypeNullableTypes, ht, List.filter]

/-- Claim C10: `isTypeNullable` treats the comma-separated string form of the
`type` field as equivalent to the array form.  For any single non-`null`
type name `t` (no comma, no whitespace, nonempty) and any whitespace around
the comma, both `"t, null"` and `"null, t"` — like the arrays `[t, "null"]`
and `["null", t]` — return `true`; a single type, an absent `type`, or a
list of only `null` entries returns `false`; a multi-entry list lacking
`null`, or containing `null` among more than two entries, throws. -/
theorem isTypeNullable_comma_string (t w1 w2 : List Char)
    (h1 : t ≠ []) (h2 : ',' ∉ t) (h3 : ∀ c ∈ t, c.isWhitespace = false)
    (h4 : ¬ t = nullChars)
    (hw1 : ∀ c ∈ w1, c.isWhitespace = true) (hw2 : ∀ c ∈ w2, c.isWhitespace = true) :
    (isTypeNullable (some (RawType.strT (t ++ w1 ++ ',' :: (w2 ++ nullChars))))
        = Except.ok true
      ∧ isTypeNullable (some (RawType.strT (nullChars ++ w1 ++ ',' :: (w2 ++ t))))
        = Except.ok true
      ∧ isTypeNullable (some (RawType.arrT [t, nullChars])) = Except.ok true
      ∧ isTypeNullable (some (RawType.arrT [nullChars, t])) = Except.ok true)
    ∧ (isTypeNullable (some (RawType.strT t)) = Except.ok false
      ∧ isTypeNullable none = Except.ok false
      ∧ isTypeNullable (some (RawType.arrT [nullChars, nullChars])) = Except.ok false)
    ∧ ((∀ ts : List (List Char), 2 ≤ ts.length → nullChars ∉ ts →
          isTypeNullable (some (RawType.arrT ts))
            = Except.error TypeErr.multiMustIncludeNull)
      ∧ (∀ ts : List (List Char), 2 < ts.length → nullChars ∈ ts →
          (∃ x ∈ ts, ¬ x = nullChars) →
          isTypeNullable (some (RawType.arrT ts))
            = Except.error TypeErr.multiOnlyOneNonNull)) := by
  have hnc := nullChars_plain
  have hsplit1 : jsSplitTypes (t ++ w1 ++ ',' :: (w2 ++ nullChars)) = [t, nullChars] :=
    jsSplitTypes_two t w1 w2 nullChars h2 h3 hw1 hw2 hnc.1 hnc.2
  have hsplit2 : jsSplitTypes (nullChars ++ w1 ++ ',' :: (w2 ++ t)) = [nullChars, t] :=
    jsSplitTypes_two nullChars w1 w2 t hnc.1 hnc.2 hw1 hw2 h2 h3
  have hpair := isTypeNullableTypes_pair t h4
  have happ1 : (t ++ w1 ++ ',' :: (w2 ++ nullChars)) ≠ [] := by
    cases t with
    | nil => exact absurd rfl h1
    | cons c r => simp
  have happ2 : (nullChars ++ w1 ++ ',' :: (w2 ++ t)) ≠ [] := by simp [nullChars]
  refine ⟨⟨?_, ?_, ?_, ?_⟩, ⟨?_, ?_, ?_⟩, ⟨?_, ?_⟩⟩
  · rw [isTypeNullable, if_pos (rawTypeTruthy_strT _ happ1), hsplit1]
    exact hpair.1
  · rw [isTypeNullable, if_pos (rawTypeTruthy_strT _ happ2), hsplit2]
    exact hpair.2
  · rw [isTypeNullable]
    exact hpair.1
  · rw [isTypeNullable]
    exact hpair.2
  · rw [isTypeNullable, if_pos (rawTypeTruthy_strT _ h1), jsSplitTypes_single t h2]
    simp [isTypeNullableTypes]
  · rfl
  · simp [isTypeNullable, isTypeNullableTypes, rawTypeTruthy, List.filter]
  · intro ts hlen hmem
    have htr : rawTypeTruthy (some (RawType.arrT ts)) = true := rfl
    have hne : ts ≠ [] := by intro e; rw [e] at hlen; simp at hlen
    obtain ⟨x, xs, rfl⟩ := List.exists_cons_of_ne_nil hne
    have hx : ¬ x = nullChars := fun e => hmem (by simp [e])
    have hfilter : ¬((x :: xs).length = 1
        ∨ ((x :: xs).filter (fun t => t ≠ nullChars)).length = 0) := by
      push_neg
      refine ⟨?_, ?_⟩
      · simp only [List.length_cons] at hlen ⊢
        omega
      · intro hzero
        have hxmem : x ∈ (x :: xs).filter (fun t => t ≠ nullChars) := by
          simp [List.mem_filter, hx]
        rw [List.length_eq_zero.mp hzero] at hxmem
        cases hxmem
    rw [isTypeNullable, if_pos htr, isTypeNullableTypes, if_neg hfilter, if_pos hmem]
  · rintro ts hlen hmem ⟨x, hxmem, hx⟩
    have htr : rawTypeTruthy (some (RawType.arrT ts)) = true := rfl
    have hfilter : ¬(ts.length = 1 ∨ (ts.filter (fun t => t ≠ nullChars)).length = 0) := by
      push_neg
      refine ⟨by omega, ?_⟩
      intro hzero
      have hxmem2 : x ∈ ts.filter (fun t => t ≠ nullChars) := by
        simp [List.mem_filter, hx, hxmem]
      rw [List.length_eq_zero.mp hzero] at hxmem2
      cases hxmem2
    have hnn : ¬ ¬ (nullChars ∈ ts) := not_not_intro hmem
    have hlen2 : ts.length ≠ 2 := by omega
    rw [isTypeNullable, if_pos htr, isTypeNullableTypes, if_neg hfilter, if_neg hnn,
      if_pos hlen2]

/-- Witness for C10 at `"number , null"` versus `["number", "null"]`. -/
theorem isTypeNullable_comma_string_witness :
    isTypeNullable (some (RawType.strT ("number".data ++ [' '] ++ ',' :: ([' '] ++ nullChars))))
        = Except.ok true
    ∧ isTypeNullable (some (RawType.arrT ["number".data, nullChars])) = Except.ok true :=
  ⟨((isTypeNullable_comma_string "number".data [' '] [' ']
      (by decide) (by decide) (by decide) (by decide) (by decide) (by decide)).1).1,
   ((isTypeNullable_comma_string "number".data [' '] [' ']
      (by decide) (by decide) (by decide) (by decide) (by decide) (by decide)).1).2.2.1⟩

/-! ## C1 and C3: tuple rendering -/

theorem mapGenerateType_length (safe : String → String) (l : List AST) (r : List String)
    (h : mapGenerateType safe l = Except.ok r) : r.length = l.length := by
  induction l generalizing r with
  | nil =>
    simp only [mapGenerateType, Except.ok.injEq] at h
    simp [← h]
  | cons x xs ih =>
    cases hgen : generateRawType safe x with
    | error e => simp [mapGenerateType, hgen] at h
    | ok s =>
      cases hrest : mapGenerateType safe xs with
      | error e => simp [mapGenerateType, hgen, hrest] at h
      | ok rest =>
        simp only [mapGenerateType, hgen, hrest, Except.ok.injEq] at h
        rw [← h]
        simp [ih rest hrest]

theorem tupleUnionLoop_eq (rest : List String) : ∀ pre : List String,
    tupleUnionLoop pre rest
      = (List.range rest.length).map
          (fun j => paramsToString (pre ++ rest.take (j + 1))) := by
  induction rest with
  | nil => intro pre; rfl
  | cons p rest ih =>
    intro pre
    rw [tupleUnionLoop, ih (pre ++ [p])]
    simp only [List.length_cons, List.range_succ_eq_map, List.map_cons, List.map_map]
    refine congrArg₂ List.cons ?_ ?_
    · simp
    · refine List.map_congr_left ?_
      intro j _
      simp [Function.comp, List.take_succ_cons, List.append_assoc]

theorem tupleUnionList_eq (m : Nat) (l : List String) :
    tupleUnionList m l
      = (List.range (l.length - m + 1)).map
          (fun j => paramsToString (l.take (m + j))) := by
  rw [tupleUnionList, tupleUnionLoop_eq, List.length_drop]
  simp only [List.range_succ_eq_map, List.map_cons, List.map_map]
  refine congrArg₂ List.cons ?_ ?_
  · simp
  · refine List.map_congr_left ?_
    intro j _
    have : m + (j + 1) = m + j + 1 := by omega
    simp [Function.comp, ← List.take_add, this]

/-- Claim C1: for a tuple AST with `minItems = m` strictly below the number
`n` of declared element types, `generateRawType` renders the union of every
fixed-arity prefix of the rendered element list, from length `m` up to
length `n` — and the union has at least two alternatives, so the output is
never a single tuple with optional trailing positions.  (The `spreadParam`,
if any, is ignored by this source file's `TUPLE` branch.) -/
theorem generateRawType_tuple_union (safe : String → String)
    (c k : Option String) (m : Nat) (mx : Option Nat) (params : List AST)
    (spread : Option AST) (rendered : List String)
    (hren : mapGenerateType safe params = Except.ok rendered)
    (hlt : m < params.length) :
    generateRawType safe (AST.mk c k none (ASTKind.TUPLE m mx params spread))
      = Except.ok (String.intercalate "|"
          ((List.range (params.length - m + 1)).map
            (fun j => paramsToString (rendered.take (m + j)))))
    ∧ 2 ≤ ((List.range (params.length - m + 1)).map
          (fun j => paramsToString (rendered.take (m + j)))).length := by
  have hlen : rendered.length = params.length :=
    mapGenerateType_length safe params rendered hren
  constructor
  · simp only [generateRawType, hren]
    rw [if_neg (by omega)]
    rw [tupleUnionList_eq, hlen]
  · simp only [List.length_map, List.length_range]
    omega

/-- Witness for C1: `minItems = 1` with three declared elements renders as
`[boolean] | [boolean, string] | [boolean, string, boolean]`. -/
theorem generateRawType_tuple_union_witness :
    generateRawType id (AST.mk none none none (ASTKind.TUPLE 1 (some 3)
        [AST.mk none none none ASTKind.BOOLEAN, AST.mk none none none ASTKind.STRING,
         AST.mk none none none ASTKind.BOOLEAN] none))
      = Except.ok "[boolean]|[boolean, string]|[boolean, string, boolean]" := by
  rw [(generateRawType_tuple_union id none none 1 (some 3)
      [AST.mk none none none ASTKind.BOOLEAN, AST.mk none none none ASTKind.STRING,
       AST.mk none none none ASTKind.BOOLEAN] none
      ["boolean", "string", "boolean"] rfl (by decide)).1]
  rfl

/-- Claim C3 amended: generation of a tuple's raw type fails with the
min-tuple-length error whenever `minItems` is at least the number of
declared element types — *including* `minItems = n`, which the claim said
renders a single fixed-arity tuple; only `minItems < n` succeeds. -/
theorem generateRawType_tuple_min_ge (safe : String → String)
    (c k : Option String) (m : Nat) (mx : Option Nat) (params : List AST)
    (spread : Option AST) (rendered : List String)
    (hren : mapGenerateType safe params = Except.ok rendered)
    (hge : params.length ≤ m) :
    generateRawType safe (AST.mk c k none (ASTKind.TUPLE m mx params spread))
      = Except.error GenErr.minTupleLength := by
  have hlen : rendered.length = params.length :=
    mapGenerateType_length safe params rendered hren
  simp only [generateRawType, hren]
  rw [if_pos (by omega)]

/-- A tuple with `minItems = 1` and exactly one declared element type
(`m = n = 1`). -/
def mEqNTuple : AST :=
  AST.mk none none none
    (ASTKind.TUPLE 1 (some 1) [AST.mk none none none ASTKind.BOOLEAN] none)

/-- Claim C3 counterexample: on a tuple with `minItems` equal to the number of
declared element types (`m = n = 1`), generation does not succeed with a
fixed-arity tuple — the `minItems >= paramsList.length` guard throws the
min-tuple-length error. -/
theorem generateRawType_m_eq_n_fails :
    (match mEqNTuple.kind with
     | ASTKind.TUPLE m _ ps _ => m = ps.length
     | _ => False)
    ∧ generateRawType id mEqNTuple = Except.error GenErr.minTupleLength :=
  ⟨rfl, rfl⟩

/-- Witness for C3 amended at `m = n = 1`. -/
theorem generateRawType_tuple_min_ge_witness :
    generateRawType id mEqNTuple = Except.error GenErr.minTupleLength :=
  generateRawType_tuple_min_ge id none none 1 (some 1)
    [AST.mk none none none ASTKind.BOOLEAN] none ["boolean"] rfl (by decide)

/-! ## C8: `null` ordered last in unions -/

theorem insertMember_not_null (a : String) (l : List String) (ha : ¬ a = "null") :
    insertMember a l = a :: l := by
  cases l with
  | nil => rfl
  | cons b rest => simp [insertMember, unionCompare, ha]

theorem insertMember_null (l : List String) : insertMember "null" l = l ++ ["null"] := by
  induction l with
  | nil => rfl
  | cons b rest ih => simp [insertMember, unionCompare, ih]

/-- The sort driven by the union comparator keeps the non-`null` members (in
order) and moves every `"null"` to the tail. -/
theorem sortMembers_eq (l : List String) :
    sortMembers l
      = l.filter (fun s => s ≠ "null") ++ List.replicate (l.count "null") "null" := by
  induction l with
  | nil => rfl
  | cons a rest ih =>
    have hstep : sortMembers (a :: rest) = insertMember a (sortMembers rest) := rfl
    by_cases ha : a = "null"
    · subst ha
      rw [hstep, ih, insertMember_null, List.append_assoc]
      rw [List.count_cons_self, List.replicate_succ']
      simp
    · rw [hstep, ih, insertMember_not_null a _ ha]
      rw [List.count_cons_of_ne ?_, List.filter_cons_of_pos ?_]
      · rfl
      · simp [ha]
      · intro e
        exact ha e.symm

theorem unionMemberStrings_ok (safe : String → String) (ps : List AST)
    (h : ∀ a ∈ ps, a.type = AST_TYPE.NULL ∨ hasStandaloneName a = true) :
    ∃ members, unionMemberStrings safe ps = Except.ok members
      ∧ ((∃ a ∈ ps, a.type = AST_TYPE.NULL) → "null" ∈ members) := by
  induction ps with
  | nil => exact ⟨[], rfl, by simp⟩
  | cons a rest ih =>
    obtain ⟨members, hmem, hnull⟩ := ih (fun b hb => h b (List.mem_cons_of_mem _ hb))
    by_cases ha : a.type = AST_TYPE.NULL
    · refine ⟨"null" :: members, ?_, by simp⟩
      simp [unionMemberStrings, ha, hmem]
    · rcases h a (List.mem_cons_self _ _) with h1 | h2
      · exact absurd h1 ha
      · obtain ⟨n, hn⟩ := Option.isSome_iff_exists.mp h2
        refine ⟨safe n :: members, ?_, ?_⟩
        · simp [unionMemberStrings, ha, hn, hmem]
        · rintro ⟨b, hb, hbt⟩
          rcases List.mem_cons.mp hb with rfl | hb2
          · exact absurd hbt ha
          · exact List.mem_cons_of_mem _ (hnull ⟨b, hb2, hbt⟩)

theorem mem_one_le_count (a : String) (l : List String) (h : a ∈ l) : 1 ≤ l.count a := by
  induction l with
  | nil => cases h
  | cons b rest ih =>
    rcases List.mem_cons.mp h with rfl | h2
    · rw [List.count_cons_self]
      omega
    · by_cases hb : a = b
      · subst hb
        rw [List.count_cons_self]
        omega
      · rw [List.count_cons_of_ne hb]
        exact ih h2

theorem getLast?_append_replicate_null (f : List String) (k : Nat) (hk : 1 ≤ k) :
    (f ++ List.replicate k "null").getLast? = some "null" := by
  obtain ⟨j, rfl⟩ : ∃ j, k = j + 1 := ⟨k - 1, by omega⟩
  rw [List.replicate_succ', ← List.append_assoc]
  exact List.getLast?_concat _

/-- Claim C8: for a union whose members include a `NULL` alternative among
named alternatives, `generateUnionMembers` succeeds and its rendered member
list always places `null` last, independent of the declaration order: the
sorted list is exactly the non-`null` members followed by the block of
`null` entries, and its final element is `null`. -/
theorem generateUnionMembers_null_last (safe : String → String) (ps : List AST)
    (hok : ∀ a ∈ ps, a.type = AST_TYPE.NULL ∨ hasStandaloneName a = true)
    (hnull : ∃ a ∈ ps, a.type = AST_TYPE.NULL) :
    ∃ members, unionMemberStrings safe ps = Except.ok members
      ∧ generateUnionMembers safe ps
          = Except.ok (String.intercalate "|"
              (members.filter (fun s => s ≠ "null")
                ++ List.replicate (members.count "null") "null"))
      ∧ 1 ≤ members.count "null"
      ∧ (sortMembers members).getLast? = some "null" := by
  obtain ⟨members, hmem, hnl⟩ := unionMemberStrings_ok safe ps hok
  have hin : "null" ∈ members := hnl hnull
  have hcount : 1 ≤ members.count "null" := mem_one_le_count _ _ hin
  refine ⟨members, hmem, ?_, hcount, ?_⟩
  · simp only [generateUnionMembers, hmem]
    rw [sortMembers_eq]
  · rw [sortMembers_eq]
    exact getLast?_append_replicate_null _ _ hcount

/-- Witness for C8: a union declared as `[null, Alpha]` renders with `null`
last. -/
theorem generateUnionMembers_null_last_witness :
    ∃ members,
      unionMemberStrings id
          [AST.mk none none none ASTKind.NULL,
           AST.mk none none (some "Alpha") ASTKind.STRING] = Except.ok members
      ∧ generateUnionMembers id
            [AST.mk none none none ASTKind.NULL,
             AST.mk none none (some "Alpha") ASTKind.STRING]
          = Except.ok (String.intercalate "|"
              (members.filter (fun s => s ≠ "null")
                ++ List.replicate (members.count "null") "null"))
      ∧ 1 ≤ members.count "null"
      ∧ (sortMembers members).getLast? = some "null" :=
  generateUnionMembers_null_last id
    [AST.mk none none none ASTKind.NULL, AST.mk none none (some "Alpha") ASTKind.STRING]
    (by
      intro a ha
      rcases List.mem_cons.mp ha with rfl | ha2
      · exact Or.inl rfl
      · rcases List.mem_cons.mp ha2 with rfl | h3
        · exact Or.inr rfl
        · cases h3)
    ⟨AST.mk none none none ASTKind.NULL, List.mem_cons_self _ _, rfl⟩

/-! ## C5: missing defaults on optional members -/

/-- A successful property parse means no property was both optional and
default-less. -/
theorem parseSchemaProps_ok_all_have_defaults (schemaId : Option String)
    (required : List String) (props : List PropSchema) (res : List TInterfaceParam)
    (h : parseSchemaProps schemaId required props = Except.ok res) :
    ∀ p ∈ props, required.contains p.key = true ∨ p.default ≠ none := by
  induction props generalizing res with
  | nil => intro p hp; cases hp
  | cons q qs ih =>
    intro p hp
    rw [parseSchemaProps] at h
    by_cases hq : ¬ required.contains q.key ∧ q.default.isNone
    · rw [if_pos hq] at h
      cases h
    · rcases List.mem_cons.mp hp with rfl | hp2
      · rcases Decidable.not_and_iff_or_not.mp hq with h1 | h2
        · exact Or.inl (by simpa using h1)
        · refine Or.inr ?_
          intro e
          rw [e] at h2
          exact h2 rfl
      · rw [if_neg hq] at h
        rcases hc : checkDefaultValue schemaId q.ast q.default with e | u
        · rw [hc] at h
          cases h
        · rw [hc] at h
          rcases hrest : parseSchemaProps schemaId required qs with e2 | rest
          · rw [hrest] at h
            cases h
          · exact ih rest hrest p hp2

/-- Claim C5: parsing a named object's properties fails whenever some property
is neither listed in `required` nor carries a default; the error raised for
the first such property (all earlier properties passing their checks) is the
missing-default error carrying that member's key and the containing schema's
id; and when every non-required property has a default, the missing-default
error never occurs. -/
theorem parseSchemaProps_missing_default (schemaId : Option String)
    (required : List String) (props : List PropSchema) :
    ((∃ p ∈ props, required.contains p.key = false ∧ p.default = none) →
        ∃ e, parseSchemaProps schemaId required props = Except.error e)
    ∧ (∀ pre p post, props = pre ++ p :: post →
        required.contains p.key = false → p.default = none →
        (∀ q ∈ pre, (required.contains q.key = true ∨ q.default ≠ none)
          ∧ (∀ d, q.default = some d → validateDefault q.ast d = true)) →
        parseSchemaProps schemaId required props
          = Except.error (ParseErr.missingDefault p.key schemaId))
    ∧ ((∀ p ∈ props, required.contains p.key = false → p.default ≠ none) →
        ∀ k sid, parseSchemaProps schemaId required props
          ≠ Except.error (ParseErr.missingDefault k sid)) := by
  refine ⟨?_, ?_, ?_⟩
  · intro ⟨p, hp, hreq, hdef⟩
    rcases hres : parseSchemaProps schemaId required props with e | res
    · exact ⟨e, rfl⟩
    · have := parseSchemaProps_ok_all_have_defaults schemaId required props res hres p hp
      rcases this with h1 | h2
      · rw [hreq] at h1
        cases h1
      · exact absurd hdef h2
  · intro pre
    induction pre generalizing props with
    | nil =>
      intro p post hprops hreq hdef _
      subst hprops
      rw [List.nil_append, parseSchemaProps, if_pos (by rw [hreq, hdef] ; decide)]
    | cons q pre' ih =>
      intro p post hprops hreq hdef hpre
      subst hprops
      obtain ⟨hq1, hq2⟩ := hpre q (List.mem_cons_self _ _)
      rw [List.cons_append]
      simp only [parseSchemaProps]
      rw [if_neg ?_]
      · have hcheck : checkDefaultValue schemaId q.ast q.default = Except.ok () := by
          rcases hd : q.default with _ | d
          · rfl
          · rw [checkDefaultValue, if_neg ?_]
            simp only [Decidable.not_not]
            exact hq2 d hd
        rw [hcheck]
        rw [ih (pre' ++ p :: post) p post rfl hreq hdef
          (fun r hr => hpre r (List.mem_cons_of_mem _ hr))]
      · intro ⟨ha, hb⟩
        rcases hq1 with h1 | h2
        · exact ha h1
        · rcases hd : q.default with _ | d
          · exact h2 hd
          · rw [hd] at hb
            cases hb
  · intro hall k sid
    induction props with
    | nil =>
      rw [parseSchemaProps]
      intro h
      cases h
    | cons q qs ih =>
      rw [parseSchemaProps]
      rw [if_neg ?_]
      · rcases hc : checkDefaultValue schemaId q.ast q.default with e | u
        · rcases hd : q.default with _ | d
          · rw [hd] at hc
            cases hc
          · rw [hd, checkDefaultValue] at hc
            by_cases hv : ¬ validateDefault q.ast d = true
            · rw [if_pos hv] at hc
              rw [← hc]
              intro h
              injection h with h2
              cases h2
            · rw [if_neg hv] at hc
              cases hc
        · rcases hrest : parseSchemaProps schemaId required qs with e2 | rest
          · have := ih (fun p hp => hall p (List.mem_cons_of_mem _ hp))
            rw [hrest] at this
            intro h
            injection h with h2
            exact this (by rw [h2])
          · intro h
            cases h
      · intro ⟨ha, hb⟩
        have := hall q (List.mem_cons_self _ _) (by simpa using ha)
        rcases hd : q.default with _ | d
        · exact this hd
        · rw [hd] at hb
          cases hb

/-- Witness for C5: a single optional, default-less property fails with the
missing-default error naming that property and the schema. -/
theorem parseSchemaProps_missing_default_witness :
    parseSchemaProps (some "S") ["a"]
        [PropSchema.mk "b" none (AST.mk none none none ASTKind.STRING)]
      = Except.error (ParseErr.missingDefault "b" (some "S")) :=
  (parseSchemaProps_missing_default (some "S") ["a"]
      [PropSchema.mk "b" none (AST.mk none none none ASTKind.STRING)]).2.1
    [] (PropSchema.mk "b" none (AST.mk none none none ASTKind.STRING)) [] rfl
    (by decide) rfl (fun q hq => absurd hq (List.not_mem_nil q))

/-! ## C6: `null` defaults and nullability (the `part_002` variant) -/

/-- A property AST with a standalone name whose kind is `STRING`. -/
def namedStringAst : AST := AST.mk none none (some "Foo") ASTKind.STRING

/-- Claim C6 counterexample: the claim says a literal-`null` default is
accepted whenever the property's AST carries a standalone name; but for a
`STRING`-kind AST with a standalone name (and not nullable) the second check
still runs `validateDefault`, which rejects `null` for `STRING`, so parsing
fails. -/
theorem checkPropDefault_named_string_null_fails :
    hasStandaloneName namedStringAst = true
    ∧ checkPropDefault none namedStringAst false (some JSValue.null)
        = Except.error (ParseErr.invalidDefault JSValue.null none AST_TYPE.STRING) :=
  ⟨rfl, rfl⟩

/-- Claim C6 amended: in the `part_002` variant, a property whose recorded
default is literal `null` parses successfully exactly when the property is
nullable, or it carries a standalone name *and* its AST kind's default check
accepts `null` (the interface, intersection, object, reference, union and
null kinds); a non-null default must pass the kind check unless the property
is nullable; a nullable property skips default checking entirely. -/
theorem checkPropDefault_amended (schemaId : Option String) (ast : AST)
    (nullable : Bool) :
    (checkPropDefault schemaId ast nullable (some JSValue.null) = Except.ok ()
        ↔ (nullable = true
            ∨ (hasStandaloneName ast = true
                ∧ validateDefaultP2 ast JSValue.null = Except.ok true)))
    ∧ (∀ d : JSValue, d.isNull = false →
        (checkPropDefault schemaId ast nullable (some d) = Except.ok ()
          ↔ (nullable = true ∨ validateDefaultP2 ast d = Except.ok true)))
    ∧ (nullable = true →
        ∀ dflt, checkPropDefault schemaId ast nullable dflt = Except.ok ()) := by
  refine ⟨?_, ?_, ?_⟩
  · cases nullable with
    | true => simp [checkPropDefault]
    | false =>
      cases hs : hasStandaloneName ast with
      | false =>
        rw [checkPropDefault, if_pos (by simp [isSomeNull, hs])]
        simp
      | true =>
        rw [checkPropDefault, if_neg (by simp [hs])]
        rw [if_pos (by simp)]
        rcases hv : validateDefaultP2 ast JSValue.null with e | v
        · simp [hv]
        · cases v with
          | true => simp [hv]
          | false => simp [hv]
  · intro d hd
    cases nullable with
    | true => simp [checkPropDefault]
    | false =>
      have hnn : isSomeNull (some d) = false := by
        cases d <;> simp_all [isSomeNull, JSValue.isNull]
      rw [checkPropDefault, if_neg (by simp [hnn])]
      rw [if_pos (by simp)]
      rcases hv : validateDefaultP2 ast d with e | v
      · simp [hv]
      · cases v with
        | true => simp [hv]
        | false => simp [hv]
  · intro hn dflt
    subst hn
    simp [checkPropDefault]

/-- Witness for C6 amended: an interface-kind AST with a standalone name
accepts a `null` default even when not nullable. -/
theorem checkPropDefault_amended_witness :
    checkPropDefault none (AST.mk none none (some "Bar") (ASTKind.INTERFACE [])) false
        (some JSValue.null) = Except.ok () :=
  ((checkPropDefault_amended none
      (AST.mk none none (some "Bar") (ASTKind.INTERFACE [])) false).1).mpr
    (Or.inr ⟨rfl, rfl⟩)

/-! ## C9: the validator collects every violation -/

theorem length_filterMap_ite {α β : Type} (l : List α) (p : α → Prop)
    [DecidablePred p] (g : α → β) :
    (l.filterMap (fun a => if p a then some (g a) else none)).length
      = (l.filter (fun a => p a)).length := by
  induction l with
  | nil => rfl
  | cons a rest ih =>
    by_cases hp : p a
    · simp [List.filterMap_cons, List.filter_cons, hp, ih]
    · simp [List.filterMap_cons, List.filter_cons, hp, ih]

/-- Claim C9: `validate` never fails fast: its output is, rule by rule in
insertion order, the diagnostics of every node of the schema graph that
violates that rule; its length is the total number of violated (rule, node)
pairs; every violation contributes its diagnostic; and whenever the list is
non-empty, `compile` aborts with exactly that list, producing no output. -/
theorem validate_collects_all (schema : VSchema) (filename : String) :
    (validate schema filename
      = (allNodes "" schema).filterMap
          (fun kn => if ruleMaxMin kn.2 = some false then
            some (errString kn.1 filename
              "When both maxItems and minItems are present, maxItems >= minItems")
            else none)
        ++ ((allNodes "" schema).filterMap
          (fun kn => if ruleMaxNonneg kn.2 = some false then
            some (errString kn.1 filename "When maxItems exists, maxItems >= 0")
            else none)
        ++ (allNodes "" schema).filterMap
          (fun kn => if ruleMinNonneg kn.2 = some false then
            some (errString kn.1 filename "When minItems exists, minItems >= 0")
            else none)))
    ∧ (validate schema filename).length
        = ((allNodes "" schema).filter (fun kn => ruleMaxMin kn.2 = some false)).length
          + ((allNodes "" schema).filter (fun kn => ruleMaxNonneg kn.2 = some false)).length
          + ((allNodes "" schema).filter (fun kn => ruleMinNonneg kn.2 = some false)).length
    ∧ (∀ r ∈ rulesList, ∀ kn ∈ allNodes "" schema, r.2 kn.2 = some false →
        errString kn.1 filename r.1 ∈ validate schema filename)
    ∧ (∀ pipeline, validate schema filename ≠ [] →
        compile pipeline schema filename = Except.error (validate schema filename)) := by
  have hval : validate schema filename
      = (allNodes "" schema).filterMap
          (fun kn => if ruleMaxMin kn.2 = some false then
            some (errString kn.1 filename
              "When both maxItems and minItems are present, maxItems >= minItems")
            else none)
        ++ ((allNodes "" schema).filterMap
          (fun kn => if ruleMaxNonneg kn.2 = some false then
            some (errString kn.1 filename "When maxItems exists, maxItems >= 0")
            else none)
        ++ (allNodes "" schema).filterMap
          (fun kn => if ruleMinNonneg kn.2 = some false then
            some (errString kn.1 filename "When minItems exists, minItems >= 0")
            else none)) := by
    simp [validate, rulesList]
  refine ⟨hval, ?_, ?_, ?_⟩
  · rw [hval]
    simp only [List.length_append]
    rw [length_filterMap_ite, length_filterMap_ite, length_filterMap_ite]
    omega
  · intro r hr kn hkn hviol
    rw [hval]
    rcases List.mem_cons.mp hr with rfl | hr2
    · refine List.mem_append_left _ ?_
      exact List.mem_filterMap.mpr ⟨kn, hkn, by rw [if_pos hviol]⟩
    · rcases List.mem_cons.mp hr2 with rfl | hr3
      · refine List.mem_append_right _ (List.mem_append_left _ ?_)
        exact List.mem_filterMap.mpr ⟨kn, hkn, by rw [if_pos hviol]⟩
      · rcases List.mem_cons.mp hr3 with rfl | hr4
        · refine List.mem_append_right _ (List.mem_append_right _ ?_)
          exact List.mem_filterMap.mpr ⟨kn, hkn, by rw [if_pos hviol]⟩
        · cases hr4
  · intro pipeline hne
    rw [compile, if_pos ?_]
    intro hlen
    exact hne (List.length_eq_zero.mp hlen)

/-- A schema graph with three bound violations at three different nodes. -/
def vBadSchema : VSchema :=
  VSchema.node (some 3) (some 1)
    [("a", VSchema.node (some (-1)) none []),
     ("b", VSchema.node none (some (-2)) [])]

/-- Witness for C9: all three rules report on `vBadSchema`, and `compile`
aborts with the full list. -/
theorem validate_collects_all_witness :
    compile (fun _ => "generated") vBadSchema "f.json"
        = Except.error (validate vBadSchema "f.json")
    ∧ (validate vBadSchema "f.json").length = 3 :=
  ⟨(validate_collects_all vBadSchema "f.json").2.2.2 (fun _ => "generated")
      (by decide),
   by decide⟩

/-! ## C2: cycle-safe parsing -/

/-- The schema-node identities present in the cache. -/
def cacheKeys (cache : List (Nat × Nat)) : List Nat := cache.map Prod.fst

theorem lookupCache_none_iff (cache : List (Nat × Nat)) (s : Nat) :
    lookupCache cache s = none ↔ s ∉ cacheKeys cache := by
  induction cache with
  | nil => simp [lookupCache, cacheKeys]
  | cons p rest ih =>
    obtain ⟨k, a⟩ := p
    by_cases hk : k = s
    · subst hk
      simp [lookupCache, cacheKeys]
    · have hks : ¬ s = k := fun e => hk e.symm
      simp only [lookupCache, if_neg hk, cacheKeys, List.map_cons, List.mem_cons]
      rw [ih]
      simp [cacheKeys, hks]

theorem lookupCache_some_mem (cache : List (Nat × Nat)) (s a : Nat)
    (h : lookupCache cache s = some a) : s ∈ cacheKeys cache := by
  by_contra hmem
  rw [← lookupCache_none_iff] at hmem
  rw [h] at hmem
  cases hmem

/-- The invariant maintained by `parse` over its state: the cache never
holds two entries for one schema node, every cached node is a node of the
graph, and the processing trace records exactly the cache insertions. -/
structure ParseInv (G : SchemaGraph) (st : PState) : Prop where
  nodup : (cacheKeys st.cache).Nodup
  bounded : ∀ p ∈ st.cache, p.1 < G.size
  traceEq : st.trace.reverse = cacheKeys st.cache

/-- Every binding of the first cache is intact in the second. -/
def cachePreserved (c1 c2 : List (Nat × Nat)) : Prop :=
  ∀ x b, lookupCache c1 x = some b → lookupCache c2 x = some b

theorem childrenOf_bounded (G : SchemaGraph) (hwf : G.WF) (s : Nat) :
    ∀ c ∈ G.childrenOf s, c < G.size := by
  intro c hc
  rw [SchemaGraph.childrenOf] at hc
  rcases Nat.lt_or_ge s G.children.length with hlt | hge
  · rw [List.getD_eq_getElem?_getD] at hc
    rw [List.getElem?_eq_getElem hlt] at hc
    exact hwf _ (List.getElem_mem hlt) c hc
  · rw [List.getD_eq_getElem?_getD, List.getElem?_eq_none hge] at hc
    cases hc

theorem nodup_lt_length_le (l : List Nat) (n : Nat) (hn : l.Nodup)
    (hb : ∀ x ∈ l, x < n) : l.length ≤ n := by
  have hsub : l.toFinset ⊆ Finset.range n := by
    intro x hx
    rw [Finset.mem_range]
    exact hb x (List.mem_toFinset.mp hx)
  have hcard := Finset.card_le_card hsub
  rwa [List.toFinset_card_of_nodup hn, Finset.card_range] at hcard

/-- Totality and cache soundness of `parseF`, by induction on the fuel: with
fuel exceeding the number of still-unprocessed nodes, `parseF` succeeds,
preserves the invariant, only grows the cache (never disturbing an existing
binding), and leaves the parsed node bound to the returned AST instance. -/
theorem parseF_total (G : SchemaGraph) (hwf : G.WF) : ∀ fuel : Nat,
    (∀ s st, ParseInv G st → s < G.size → G.size - st.cache.length < fuel →
      ∃ a st', parseF G fuel s st = some (a, st')
        ∧ ParseInv G st'
        ∧ st.cache.length ≤ st'.cache.length
        ∧ cachePreserved st.cache st'.cache
        ∧ lookupCache st'.cache s = some a)
    ∧ (∀ l st, ParseInv G st → (∀ c ∈ l, c < G.size) →
        G.size - st.cache.length < fuel →
      ∃ st', parseChildren G fuel l st = some st'
        ∧ ParseInv G st'
        ∧ st.cache.length ≤ st'.cache.length
        ∧ cachePreserved st.cache st'.cache) := by
  intro fuel
  induction fuel with
  | zero =>
    constructor
    · intro s st _ _ hfuel
      omega
    · intro l st _ _ hfuel
      omega
  | succ fuel ih =>
    obtain ⟨ihF, ihC⟩ := ih
    have hF : ∀ s st, ParseInv G st → s < G.size →
        G.size - st.cache.length < fuel + 1 →
        ∃ a st', parseF G (fuel + 1) s st = some (a, st')
          ∧ ParseInv G st'
          ∧ st.cache.length ≤ st'.cache.length
          ∧ cachePreserved st.cache st'.cache
          ∧ lookupCache st'.cache s = some a := by
      intro s st hinv hs hfuel
      rcases hlook : lookupCache st.cache s with _ | a
      · -- not yet processed: install the cache entry, then recurse
        have hsnotin : s ∉ cacheKeys st.cache := (lookupCache_none_iff _ _).mp hlook
        have hkeylen : (cacheKeys st.cache).length = st.cache.length :=
          List.length_map _ _
        have hlen_lt : st.cache.length < G.size := by
          have hnodup1 : (s :: cacheKeys st.cache).Nodup :=
            List.nodup_cons.mpr ⟨hsnotin, hinv.nodup⟩
          have hb1 : ∀ x ∈ s :: cacheKeys st.cache, x < G.size := by
            intro x hx
            rcases List.mem_cons.mp hx with rfl | hx2
            · exact hs
            · obtain ⟨p, hp, rfl⟩ := List.mem_map.mp hx2
              exact hinv.bounded p hp
          have := nodup_lt_length_le _ _ hnodup1 hb1
          simp only [List.length_cons, hkeylen] at this
          omega
        have hinv1 : ParseInv G
            (PState.mk ((s, st.next) :: st.cache) (st.next + 1) (st.trace ++ [s])) := by
          refine ⟨?_, ?_, ?_⟩
          · simpa [cacheKeys] using List.nodup_cons.mpr ⟨hsnotin, hinv.nodup⟩
          · intro p hp
            rcases List.mem_cons.mp hp with rfl | hp2
            · exact hs
            · exact hinv.bounded p hp2
          · simp [cacheKeys, hinv.traceEq]
        have hfuel1 : G.size -
            (PState.mk ((s, st.next) :: st.cache) (st.next + 1)
              (st.trace ++ [s])).cache.length < fuel := by
          simp only [List.length_cons]
          omega
        obtain ⟨st2, hrun, hinv2, hlen2, hpre2⟩ :=
          ihC (G.childrenOf s)
            (PState.mk ((s, st.next) :: st.cache) (st.next + 1) (st.trace ++ [s]))
            hinv1 (childrenOf_bounded G hwf s) hfuel1
        refine ⟨st.next, st2, ?_, hinv2, ?_, ?_, ?_⟩
        · simp only [parseF, hlook, hrun]
        · simp only [List.length_cons] at hlen2
          omega
        · intro x b hxb
          apply hpre2
          have hxs : ¬ s = x := by
            intro e
            exact hsnotin (e ▸ lookupCache_some_mem st.cache x b hxb)
          simpa [lookupCache, hxs] using hxb
        · apply hpre2
          simp [lookupCache]
      · -- already processed: return the cached instance unchanged
        refine ⟨a, st, ?_, hinv, Nat.le_refl _, fun x b hb => hb, hlook⟩
        simp only [parseF, hlook]
    refine ⟨hF, ?_⟩
    intro l st hinv hb hfuel
    induction l generalizing st with
    | nil =>
      refine ⟨st, ?_, hinv, Nat.le_refl _, fun x b hb => hb⟩
      simp only [parseChildren]
    | cons c cs ihl =>
      obtain ⟨a, st1, hp, hinv1, hlen1, hpre1, _⟩ :=
        hF c st hinv (hb c (List.mem_cons_self _ _)) hfuel
      obtain ⟨st2, hrun2, hinv2, hlen2, hpre2⟩ :=
        ihl st1 hinv1 (fun x hx => hb x (List.mem_cons_of_mem _ hx)) (by omega)
      refine ⟨st2, ?_, hinv2, by omega, fun x b hxb => hpre2 x b (hpre1 x b hxb)⟩
      simp only [parseChildren, hp, hrun2]

/-- Models `parseF` never disturbs an existing cache binding, with no assumption on
the starting state. -/
theorem parseF_preserves (G : SchemaGraph) : ∀ fuel : Nat,
    (∀ t st r, parseF G fuel t st = some r → cachePreserved st.cache r.2.cache)
    ∧ (∀ l st st', parseChildren G fuel l st = some st' →
        cachePreserved st.cache st'.cache) := by
  intro fuel
  induction fuel with
  | zero =>
    constructor
    · intro t st r h
      simp [parseF] at h
    · intro l st st' h
      cases l with
      | nil =>
        simp only [parseChildren, Option.some.injEq] at h
        intro x b hb
        rw [← h]
        exact hb
      | cons c cs =>
        simp [parseChildren, parseF] at h
  | succ fuel ih =>
    obtain ⟨_, ihC⟩ := ih
    have hF : ∀ t st r, parseF G (fuel + 1) t st = some r →
        cachePreserved st.cache r.2.cache := by
      intro t st r h
      rcases hlook : lookupCache st.cache t with _ | a
      · simp only [parseF, hlook] at h
        rcases hrun : parseChildren G fuel (G.childrenOf t)
            (PState.mk ((t, st.next) :: st.cache) (st.next + 1) (st.trace ++ [t]))
            with _ | st2
        · rw [hrun] at h
          cases h
        · simp only [hrun, Option.some.injEq] at h
          have hstep : cachePreserved st.cache ((t, st.next) :: st.cache) := by
            intro x b hxb
            have hxs : ¬ t = x := by
              intro e
              have hmem := lookupCache_some_mem st.cache x b hxb
              rw [← e] at hmem
              exact ((lookupCache_none_iff _ _).mp hlook) hmem
            simpa [lookupCache, hxs] using hxb
          intro x b hxb
          have h2 := ihC (G.childrenOf t) _ st2 hrun x b (hstep x b hxb)
          have hr : r.2 = st2 := by
            rw [← h]
          rw [hr]
          exact h2
      · simp only [parseF, hlook, Option.some.injEq] at h
        intro x b hxb
        have hr : r.2 = st := by
          rw [← h]
        rw [hr]
        exact hxb
    refine ⟨hF, ?_⟩
    intro l st st' h
    induction l generalizing st with
    | nil =>
      simp only [parseChildren, Option.some.injEq] at h
      intro x b hb
      rw [← h]
      exact hb
    | cons c cs ihl =>
      simp only [parseChildren] at h
      rcases hp : parseF G (fuel + 1) c st with _ | r1
      · rw [hp] at h
        cases h
      · obtain ⟨a1, st1⟩ := r1
        rw [hp] at h
        intro x b hxb
        exact ihl st1 h x b (hF c st (a1, st1) hp x b hxb)

/-- Claim C2: for every well-formed finite schema graph — self-referential or
with nodes reachable along several paths — `parse` terminates (fuel equal to
the node count plus one always suffices, because the cache entry is
installed before the recursion into the node's children), processes each
distinct schema node at most once (the processing trace has no duplicates),
leaves the parsed node bound to its AST instance, returns that very same
instance immediately on any later parse of the same node, and never
disturbs an existing cache binding. -/
theorem parse_cycle_safe (G : SchemaGraph) (hwf : G.WF) (s : Nat) (hs : s < G.size) :
    (∃ a st', parseF G (G.size + 1) s initState = some (a, st')
       ∧ lookupCache st'.cache s = some a
       ∧ st'.trace.Nodup)
    ∧ (∀ fuel st a, lookupCache st.cache s = some a →
        parseF G (fuel + 1) s st = some (a, st))
    ∧ (∀ fuel t st r, parseF G fuel t st = some r →
        cachePreserved st.cache r.2.cache) := by
  refine ⟨?_, ?_, ?_⟩
  · have hinv0 : ParseInv G initState :=
      ⟨List.nodup_nil, fun p hp => absurd hp (List.not_mem_nil p), rfl⟩
    have hfuel0 : G.size - initState.cache.length < G.size + 1 := by
      simp [initState]
    obtain ⟨a, st', hp, hinv', _, _, hlook⟩ :=
      (parseF_total G hwf (G.size + 1)).1 s initState hinv0 hs hfuel0
    refine ⟨a, st', hp, hlook, ?_⟩
    have hnd := hinv'.nodup
    rw [← hinv'.traceEq] at hnd
    exact List.nodup_reverse.mp hnd
  · intro fuel st a h
    simp only [parseF, h]
  · exact fun fuel t st r h => (parseF_preserves G fuel).1 t st r h

/-- A two-node schema graph in which node 0 contains node 1 and itself, and
node 1 refers back to node 0 (a cycle plus a shared node). -/
def cyclicGraph : SchemaGraph := SchemaGraph.mk [[1, 0], [0]]

/-- Witness for C2 on the concrete cyclic graph: parsing terminates, each
node is processed once, and the run evaluates to the expected cache. -/
theorem parse_cycle_safe_witness :
    (∃ a st', parseF cyclicGraph (cyclicGraph.size + 1) 0 initState = some (a, st')
       ∧ lookupCache st'.cache 0 = some a
       ∧ st'.trace.Nodup)
    ∧ parseF cyclicGraph 3 0 initState
        = some (0, PState.mk [(1, 1), (0, 0)] 2 [0, 1]) :=
  ⟨(parse_cycle_safe cyclicGraph (by decide) 0 (by decide)).1,
   by simp [parseF, parseChildren, lookupCache, initState, SchemaGraph.childrenOf,
     List.getD, cyclicGraph]⟩

end JsonSchemaToTs
